import Mathlib

/-!
# QtSnake: the game engine, embedded and verified

A shallow embedding of the core of the snake game (`src/core/Snake.cpp`,
`src/core/Food.cpp`, `src/core/GameLogic.cpp` and the headers under
`src/Constants`), followed by theorems about it.

Modelling conventions.

* C++ `int` is `Int`.  Signed overflow is undefined behaviour in C++, so there
  is no wrapped value to model; the embedding is exact as long as no
  coordinate, score or cell count leaves the 32-bit range.
* `QVector<QPoint>` is `List QPoint`, index 0 first.
* `Food::randomGenerator_` is a `std::function<int(int,int)>` and may carry
  hidden state.  It is modelled by a function that also receives the number
  of calls made so far (`Food.rngCalls`), so every deterministic generator and
  every run of a random one is covered.  The default generator wraps
  `QRandomGenerator::bounded`, library code; it is a parameter of the
  constructors here.
* `availablePositions[index]` with an index outside the vector is undefined
  behaviour.  `Food.respawn` and everything that calls it therefore return an
  `Option`; `none` stands for that out-of-range access and for nothing else.
* Qt signals are collected, in emission order, in a list of `Event`s returned
  next to the new state.  `QTimer` is reduced to `timerActive`.
-/

namespace SnakeGame

/-! ## Constants (`src/Constants/Constants.h`) -/

namespace Constants

def kDefaultBoardWidth : Int := 20

def kDefaultBoardHeight : Int := 15

def kInitialSnakeLength : Int := 3

def kGameTickInterval : Int := 200

def kScorePerFood : Int := 10

end Constants

/-! ## QPoint -/

/-- The part of Qt `QPoint` the engine uses: an integer pair. -/
structure QPoint where
  x : Int
  y : Int
deriving DecidableEq, Repr

instance : Add QPoint := ⟨fun a b => ⟨a.x + b.x, a.y + b.y⟩⟩

instance : HMul QPoint Int QPoint := ⟨fun p k => ⟨p.x * k, p.y * k⟩⟩

/-! ## Direction and GameState (`src/Constants/Direction.h`, `GameState.h`) -/

inductive Direction where
  | Up
  | Down
  | Left
  | Right
deriving DecidableEq, Repr

namespace DirectionHelper

def isOpposite (dir1 dir2 : Direction) : Bool :=
  (dir1 == Direction.Up && dir2 == Direction.Down) ||
  (dir1 == Direction.Down && dir2 == Direction.Up) ||
  (dir1 == Direction.Left && dir2 == Direction.Right) ||
  (dir1 == Direction.Right && dir2 == Direction.Left)

def toOffset (dir : Direction) : QPoint :=
  match dir with
  | Direction.Up => ⟨0, -1⟩
  | Direction.Down => ⟨0, 1⟩
  | Direction.Left => ⟨-1, 0⟩
  | Direction.Right => ⟨1, 0⟩

end DirectionHelper

inductive GameState where
  | Ready
  | Running
  | Paused
  | GameOver
deriving DecidableEq, Repr

/-! ## Snake (`src/core/Snake.cpp`) -/

structure Snake where
  body : List QPoint
  currentDirection : Direction
deriving DecidableEq, Repr

namespace Snake

def getHead (s : Snake) : QPoint :=
  match s.body with
  | [] => ⟨-1, -1⟩
  | h :: _ => h

def getBody (s : Snake) : List QPoint := s.body

def getDirection (s : Snake) : Direction := s.currentDirection

def getLength (s : Snake) : Int := s.body.length

def calculateNextHead (s : Snake) : QPoint :=
  s.getHead + DirectionHelper.toOffset s.currentDirection

/-- `prepend(newHead)` then `removeLast()`; nothing on an empty body. -/
def move (s : Snake) : Snake :=
  if s.body.isEmpty then s
  else { s with body := (s.calculateNextHead :: s.body).dropLast }

/-- `prepend(newHead)`, tail kept; nothing on an empty body. -/
def grow (s : Snake) : Snake :=
  if s.body.isEmpty then s
  else { s with body := s.calculateNextHead :: s.body }

/-- The returned flag is the C++ return value. -/
def setDirection (s : Snake) (newDirection : Direction) : Bool × Snake :=
  if DirectionHelper.isOpposite s.currentDirection newDirection then (false, s)
  else (true, { s with currentDirection := newDirection })

/-- The loop `for (i = 0; i < initialLength; ++i) body_.append(startPos + reverseOffset * i)`
after `body_.clear()`. -/
def reset (s : Snake) (startPos : QPoint) (initialLength : Int)
    (initialDirection : Direction) : Snake :=
  let offset := DirectionHelper.toOffset initialDirection
  let reverseOffset : QPoint := ⟨-offset.x, -offset.y⟩
  { s with
    body := (List.range initialLength.toNat).map fun (i : Nat) =>
      startPos + reverseOffset * Int.ofNat i
    currentDirection := initialDirection }

/-- The constructor: it only calls `reset`. -/
def new (startPos : QPoint) (initialLength : Int) (initialDirection : Direction) : Snake :=
  reset ⟨[], initialDirection⟩ startPos initialLength initialDirection

end Snake

/-! ## Food (`src/core/Food.cpp`) -/

/-- A generator receives the number of earlier calls, then `min` and `max`. -/
abbrev RandomGenerator := Nat → Int → Int → Int

/-- The documented contract of a generator (`Food.h`): both ends inclusive. -/
def RandomGenerator.InRange (gen : RandomGenerator) : Prop :=
  ∀ (n : Nat) (lo hi : Int), lo ≤ hi → lo ≤ gen n lo hi ∧ gen n lo hi ≤ hi

structure Food where
  position : QPoint
  boardWidth : Int
  boardHeight : Int
  randomGenerator : RandomGenerator
  rngCalls : Nat

namespace Food

def new (boardWidth boardHeight : Int) (gen : RandomGenerator) : Food :=
  { position := ⟨-1, -1⟩, boardWidth := boardWidth, boardHeight := boardHeight,
    randomGenerator := gen, rngCalls := 0 }

def getPosition (f : Food) : QPoint := f.position

/-- The two nested loops: `x` outermost, `y` innermost, a cell kept when the
exclusion list does not contain it. -/
def getAvailablePositions (f : Food) (excludePositions : List QPoint) : List QPoint :=
  (List.range f.boardWidth.toNat).flatMap fun (x : Nat) =>
    ((List.range f.boardHeight.toNat).map fun (y : Nat) =>
      QPoint.mk (Int.ofNat x) (Int.ofNat y)).filter
      fun pos => !excludePositions.contains pos

/-- The flag is the C++ return value; `none` is the out-of-range `operator[]`. -/
def respawn (f : Food) (excludePositions : List QPoint) : Option (Bool × Food) :=
  let availablePositions := f.getAvailablePositions excludePositions
  if availablePositions.isEmpty then some (false, f)
  else
    let index := f.randomGenerator f.rngCalls 0 ((availablePositions.length : Int) - 1)
    if index < 0 then none
    else
      match availablePositions[index.toNat]? with
      | none => none
      | some p => some (true, { f with position := p, rngCalls := f.rngCalls + 1 })

/-- A null `std::function` is ignored. -/
def setRandomGenerator (f : Food) (generator : Option RandomGenerator) : Food :=
  match generator with
  | some gen => { f with randomGenerator := gen, rngCalls := 0 }
  | none => f

def reset (f : Food) (boardWidth boardHeight : Int) : Food :=
  { f with boardWidth := boardWidth, boardHeight := boardHeight, position := ⟨-1, -1⟩ }

end Food

/-! ## GameLogic (`src/core/GameLogic.cpp`) -/

/-- The five signals of `GameLogic`. -/
inductive Event where
  | snakeMoved (body : List QPoint)
  | foodSpawned (position : QPoint)
  | scoreChanged (score : Int)
  | gameStateChanged (state : GameState)
  | gameOver (finalScore : Int)
deriving DecidableEq, Repr

structure GameLogic where
  snake : Snake
  food : Food
  timerActive : Bool
  state : GameState
  score : Int
  boardWidth : Int
  boardHeight : Int

namespace GameLogic

/-- The constructor.  `Snake()` uses its default arguments `(10,7)`, 3, Right. -/
def new (boardWidth boardHeight : Int) (gen : RandomGenerator) : GameLogic :=
  { snake := Snake.new ⟨10, 7⟩ 3 Direction.Right
    food := Food.new boardWidth boardHeight gen
    timerActive := false
    state := GameState.Ready
    score := 0
    boardWidth := boardWidth
    boardHeight := boardHeight }

def getState (g : GameLogic) : GameState := g.state

def getScore (g : GameLogic) : Int := g.score

def getSnakeBody (g : GameLogic) : List QPoint := g.snake.getBody

def getFoodPosition (g : GameLogic) : QPoint := g.food.getPosition

def getBoardWidth (g : GameLogic) : Int := g.boardWidth

def getBoardHeight (g : GameLogic) : Int := g.boardHeight

def checkWallCollision (g : GameLogic) (head : QPoint) : Bool :=
  decide (head.x < 0) || decide (head.x ≥ g.boardWidth) ||
  decide (head.y < 0) || decide (head.y ≥ g.boardHeight)

/-- The loop over the indices `1 .. size-1` of the body. -/
def checkSelfCollision (g : GameLogic) (head : QPoint) : Bool :=
  (g.snake.getBody.drop 1).any fun c => head == c

def checkFoodCollision (g : GameLogic) (head : QPoint) : Bool :=
  head == g.food.getPosition

def setState (g : GameLogic) (newState : GameState) : GameLogic × List Event :=
  if g.state ≠ newState then
    ({ g with state := newState }, [Event.gameStateChanged newState])
  else (g, [])

def handleGameOver (g : GameLogic) : GameLogic × List Event :=
  let r := ({ g with timerActive := false } : GameLogic).setState GameState.GameOver
  (r.1, r.2 ++ [Event.gameOver r.1.score])

def spawnFood (g : GameLogic) : Option (GameLogic × List Event) :=
  match g.food.respawn g.snake.getBody with
  | none => none
  | some (true, f) => some ({ g with food := f }, [Event.foodSpawned f.getPosition])
  | some (false, f) => some ({ g with food := f } : GameLogic).handleGameOver

def resetGame (g : GameLogic) : Option (GameLogic × List Event) :=
  let g1 : GameLogic := { g with timerActive := false }
  let startPos : QPoint := ⟨Int.tdiv g1.boardWidth 2, Int.tdiv g1.boardHeight 2⟩
  let g2 : GameLogic :=
    { g1 with snake := g1.snake.reset startPos Constants.kInitialSnakeLength Direction.Right }
  let g3 : GameLogic := { g2 with food := g2.food.reset g2.boardWidth g2.boardHeight }
  match g3.spawnFood with
  | none => none
  | some (g4, ev1) =>
    let r := ({ g4 with score := 0 } : GameLogic).setState GameState.Ready
    some (r.1, ev1 ++ r.2 ++
      [Event.snakeMoved r.1.snake.getBody, Event.foodSpawned r.1.food.getPosition,
       Event.scoreChanged r.1.score])

def startGame (g : GameLogic) : Option (GameLogic × List Event) :=
  match (if g.state = GameState.Ready ∨ g.state = GameState.GameOver then g.resetGame
         else some (g, [])) with
  | none => none
  | some (g1, ev1) =>
    if g1.state = GameState.Ready then
      let r := g1.setState GameState.Running
      let g2 : GameLogic := { r.1 with timerActive := true }
      some (g2, ev1 ++ r.2 ++
        [Event.snakeMoved g2.snake.getBody, Event.foodSpawned g2.food.getPosition,
         Event.scoreChanged g2.score])
    else some (g1, ev1)

def pauseGame (g : GameLogic) : GameLogic × List Event :=
  if g.state = GameState.Running then
    ({ g with timerActive := false } : GameLogic).setState GameState.Paused
  else (g, [])

def resumeGame (g : GameLogic) : GameLogic × List Event :=
  if g.state = GameState.Paused then
    let r := g.setState GameState.Running
    ({ r.1 with timerActive := true }, r.2)
  else (g, [])

/-- The return value of `Snake::setDirection` is dropped, as in the source. -/
def setDirection (g : GameLogic) (direction : Direction) : GameLogic × List Event :=
  if g.state = GameState.Running then
    ({ g with snake := (g.snake.setDirection direction).2 }, [])
  else (g, [])

/-- The candidate head of a tick: `snake_->getHead() + toOffset(snake_->getDirection())`. -/
def nextHead (g : GameLogic) : QPoint :=
  g.snake.getHead + DirectionHelper.toOffset g.snake.getDirection

/-- The timer slot.  After the growth branch the function goes on to the
self-collision check whatever `spawnFood` did, as the source does. -/
def onGameTick (g : GameLogic) : Option (GameLogic × List Event) :=
  if g.state ≠ GameState.Running then some (g, [])
  else
    let currentHead := g.snake.getHead
    let offset := DirectionHelper.toOffset g.snake.getDirection
    let nextHead := currentHead + offset
    if g.checkWallCollision nextHead then some g.handleGameOver
    else
      let ateFood := g.checkFoodCollision nextHead
      let moved : Option (GameLogic × List Event) :=
        if ateFood then
          let g1 : GameLogic := { g with snake := g.snake.grow }
          let g2 : GameLogic := { g1 with score := g1.score + Constants.kScorePerFood }
          match g2.spawnFood with
          | none => none
          | some (g3, ev) => some (g3, Event.scoreChanged g2.score :: ev)
        else some ({ g with snake := g.snake.move }, [])
      match moved with
      | none => none
      | some (g4, ev1) =>
        if g4.checkSelfCollision g4.snake.getHead then
          let r := g4.handleGameOver
          some (r.1, ev1 ++ r.2)
        else some (g4, ev1 ++ [Event.snakeMoved g4.snake.getBody])

end GameLogic

/-! ## Commands, runs and reachable states -/

/-- What the outside world can make the engine do: the five public commands
and the timer firing. -/
inductive Command where
  | startGame
  | pauseGame
  | resumeGame
  | resetGame
  | setDirection (direction : Direction)
  | tick
deriving DecidableEq, Repr

def GameLogic.step (g : GameLogic) (c : Command) : Option (GameLogic × List Event) :=
  match c with
  | Command.startGame => g.startGame
  | Command.pauseGame => some g.pauseGame
  | Command.resumeGame => some g.resumeGame
  | Command.resetGame => g.resetGame
  | Command.setDirection d => some (g.setDirection d)
  | Command.tick => g.onGameTick

/-- Runs the commands in order and concatenates the events. -/
def GameLogic.run (g : GameLogic) : List Command → Option (GameLogic × List Event)
  | [] => some (g, [])
  | c :: cs =>
    match g.step c with
    | none => none
    | some (g1, ev1) =>
      match GameLogic.run g1 cs with
      | none => none
      | some (g2, ev2) => some (g2, ev1 ++ ev2)

/-- The states an engine constructed with board `w` x `h` and generator `gen`
can be in. -/
inductive Reachable (w h : Int) (gen : RandomGenerator) : GameLogic → Prop where
  | init : Reachable w h gen (GameLogic.new w h gen)
  | step {g g1 : GameLogic} {ev : List Event} (c : Command) :
      Reachable w h gen g → g.step c = some (g1, ev) → Reachable w h gen g1

/-- The class invariant set up by the constructor and kept by `resetGame`:
the food and the engine agree on the board. -/
def GameLogic.WellFormed (g : GameLogic) : Prop :=
  g.food.boardWidth = g.boardWidth ∧ g.food.boardHeight = g.boardHeight

/-- Inside the board of the engine. -/
def GameLogic.InBoard (g : GameLogic) (p : QPoint) : Prop :=
  0 ≤ p.x ∧ p.x < g.boardWidth ∧ 0 ≤ p.y ∧ p.y < g.boardHeight

/-- Inside the board the food knows. -/
def Food.InBoard (f : Food) (p : QPoint) : Prop :=
  0 ≤ p.x ∧ p.x < f.boardWidth ∧ 0 ≤ p.y ∧ p.y < f.boardHeight

instance (g : GameLogic) : Decidable g.WellFormed :=
  inferInstanceAs (Decidable
    (g.food.boardWidth = g.boardWidth ∧ g.food.boardHeight = g.boardHeight))

instance (g : GameLogic) (p : QPoint) : Decidable (g.InBoard p) :=
  inferInstanceAs (Decidable (0 ≤ p.x ∧ p.x < g.boardWidth ∧ 0 ≤ p.y ∧ p.y < g.boardHeight))

instance (f : Food) (p : QPoint) : Decidable (f.InBoard p) :=
  inferInstanceAs (Decidable (0 ≤ p.x ∧ p.x < f.boardWidth ∧ 0 ≤ p.y ∧ p.y < f.boardHeight))

/-- The order of the two loops of `Food.getAvailablePositions`: by `x`, then by `y`. -/
def QPoint.lexLt (a b : QPoint) : Prop := a.x < b.x ∨ (a.x = b.x ∧ a.y < b.y)

/-- Spec-side definition, from the data model of the specification: the pairs
(Up, Down) and (Left, Right) are mutually opposite.  The code has
`DirectionHelper.isOpposite` instead. -/
def Direction.opposite : Direction → Direction
  | Direction.Up => Direction.Down
  | Direction.Down => Direction.Up
  | Direction.Left => Direction.Right
  | Direction.Right => Direction.Left

/-! ## Concrete states used as test inputs -/

/-- The stub generator of the test scenarios: always `min`, the first candidate. -/
def firstCandidate : RandomGenerator := fun _ lo _ => lo

/-- A running engine on the default 20 x 15 board with the given snake and food. -/
def runningGame (body : List QPoint) (dir : Direction) (foodAt : QPoint) : GameLogic :=
  { snake := ⟨body, dir⟩
    food := { position := foodAt, boardWidth := 20, boardHeight := 15,
              randomGenerator := firstCandidate, rngCalls := 1 }
    timerActive := true
    state := GameState.Running
    score := 0
    boardWidth := 20
    boardHeight := 15 }

/-- Scenario A: length 3, heading Right, head at (10,7), food far away. -/
def scenarioA : GameLogic := runningGame [⟨10, 7⟩, ⟨9, 7⟩, ⟨8, 7⟩] Direction.Right ⟨0, 0⟩

/-- Scenario B: as scenario A, with the food on the cell the head enters next. -/
def scenarioB : GameLogic := runningGame [⟨10, 7⟩, ⟨9, 7⟩, ⟨8, 7⟩] Direction.Right ⟨11, 7⟩

/-- Scenario C: the head on the last column, heading Right. -/
def scenarioC : GameLogic := runningGame [⟨19, 7⟩, ⟨18, 7⟩, ⟨17, 7⟩] Direction.Right ⟨0, 0⟩

/-- Scenario D: a loop; the cell right of the head is the body segment of index 3. -/
def scenarioD : GameLogic :=
  runningGame [⟨5, 5⟩, ⟨5, 6⟩, ⟨6, 6⟩, ⟨6, 5⟩, ⟨6, 4⟩] Direction.Right ⟨0, 0⟩

/-- Scenario F: a 2 x 2 board whose food uses the first-candidate stub. -/
def scenarioF : Food := Food.new 2 2 firstCandidate

/-- The board, the generator and the agreement of food and engine on the
board are kept from `g` to `g1`. -/
def GameLogic.SameFrame (g g1 : GameLogic) : Prop :=
  g1.boardWidth = g.boardWidth ∧ g1.boardHeight = g.boardHeight ∧
  g1.food.randomGenerator = g.food.randomGenerator ∧ (g.WellFormed → g1.WellFormed)

/-- What the getters of `GameLogic` show of a state, plus the heading. -/
structure Observation where
  state : GameState
  score : Int
  body : List QPoint
  heading : Direction
  food : QPoint
deriving DecidableEq, Repr

def GameLogic.observe (g : GameLogic) : Observation :=
  { state := g.getState, score := g.getScore, body := g.getSnakeBody,
    heading := g.snake.getDirection, food := g.getFoodPosition }

/-- The run of C6 evaluated: the state after `startGame`, `setDirection Up`,
`setDirection Left` on the default board, its candidate head, its neck, and
what the next tick returns. -/
def reversalRun : Option (Observation × QPoint × Option QPoint ×
    Option (Observation × List Event)) :=
  ((GameLogic.new 20 15 firstCandidate).run
      [Command.startGame, Command.setDirection Direction.Up,
       Command.setDirection Direction.Left]).map fun r =>
    (r.1.observe, r.1.nextHead, r.1.snake.body[1]?,
     r.1.onGameTick.map fun t => (t.1.observe, t.2))

/-- A running engine on a 4 x 1 board whose only free cell, (3,0), holds the
food and is the cell the head enters next: the state `startGame` leaves on
that board. -/
def scenarioFull : GameLogic :=
  { snake := ⟨[⟨2, 0⟩, ⟨1, 0⟩, ⟨0, 0⟩], Direction.Right⟩
    food := { position := ⟨3, 0⟩, boardWidth := 4, boardHeight := 1,
              randomGenerator := firstCandidate, rngCalls := 1 }
    timerActive := true
    state := GameState.Running
    score := 0
    boardWidth := 4
    boardHeight := 1 }

/-- The state one tick after `scenarioFull`: the snake fills the 4 x 1 board. -/
def scenarioFullOver : GameLogic :=
  { snake := ⟨[⟨3, 0⟩, ⟨2, 0⟩, ⟨1, 0⟩, ⟨0, 0⟩], Direction.Right⟩
    food := { position := ⟨3, 0⟩, boardWidth := 4, boardHeight := 1,
              randomGenerator := firstCandidate, rngCalls := 1 }
    timerActive := false
    state := GameState.GameOver
    score := 10
    boardWidth := 4
    boardHeight := 1 }

/-- The Running state `startGame` leaves on a 3 x 3 board: the snake built by
`Snake.reset` from the centre (1,1) has its last cell at x = -1. -/
def scenarioNarrow : GameLogic :=
  { snake := ⟨[⟨1, 1⟩, ⟨0, 1⟩, ⟨-1, 1⟩], Direction.Right⟩
    food := { position := ⟨0, 0⟩, boardWidth := 3, boardHeight := 3,
              randomGenerator := firstCandidate, rngCalls := 1 }
    timerActive := true
    state := GameState.Running
    score := 0
    boardWidth := 3
    boardHeight := 3 }

/-- A snake of four distinct cells in a square, heading Right: the cell the
head enters next, (6,5), is the tail.  The food is far away. -/
def scenarioTail : GameLogic :=
  runningGame [⟨5, 5⟩, ⟨5, 6⟩, ⟨6, 6⟩, ⟨6, 5⟩] Direction.Right ⟨0, 0⟩

/-- As `scenarioTail`, with the food on the tail cell (6,5). -/
def scenarioTailFood : GameLogic :=
  runningGame [⟨5, 5⟩, ⟨5, 6⟩, ⟨6, 6⟩, ⟨6, 5⟩] Direction.Right ⟨6, 5⟩

/-- The default generator set by the constructor of `Food`:
`QRandomGenerator::global()->bounded(min, max + 1)`.  `bounded` is library
code and is a parameter here; like every generator it also receives the
number of earlier calls. -/
def Food.defaultGenerator (bounded : Nat → Int → Int → Int) : RandomGenerator :=
  fun n min max => bounded n min (max + 1)

/-- Manhattan distance between two cells. -/
def QPoint.manhattan (a b : QPoint) : Nat := (a.x - b.x).natAbs + (a.y - b.y).natAbs

/-- Every two consecutive cells of the list are one unit step apart. -/
def Contiguous (l : List QPoint) : Prop :=
  List.Chain' (fun a b => QPoint.manhattan a b = 1) l

/-! ## Lemmas on lists and on the helpers of the engine -/

theorem mem_dropLast_iff_index {α : Type} (l : List α) (p : α) :
    p ∈ l.dropLast ↔ ∃ i : Nat, i + 1 < l.length ∧ l[i]? = some p := by
  rw [List.mem_iff_getElem?]
  constructor
  · rintro ⟨i, hi⟩
    rw [List.getElem?_dropLast] at hi
    by_cases h : i < l.length - 1
    · rw [if_pos h] at hi
      exact ⟨i, by omega, hi⟩
    · rw [if_neg h] at hi
      cases hi
  · rintro ⟨i, hlt, hi⟩
    refine ⟨i, ?_⟩
    rw [List.getElem?_dropLast, if_pos (by omega)]
    exact hi

theorem Snake.move_body (s : Snake) (h : s.body ≠ []) :
    s.move.body = s.calculateNextHead :: s.body.dropLast := by
  simp [Snake.move, h, List.dropLast_cons_of_ne_nil]

theorem Snake.move_currentDirection (s : Snake) :
    s.move.currentDirection = s.currentDirection := by
  unfold Snake.move; split <;> rfl

theorem Snake.grow_body (s : Snake) (h : s.body ≠ []) :
    s.grow.body = s.calculateNextHead :: s.body := by
  simp [Snake.grow, h]

theorem Snake.grow_currentDirection (s : Snake) :
    s.grow.currentDirection = s.currentDirection := by
  unfold Snake.grow; split <;> rfl

namespace GameLogic

theorem checkWallCollision_eq_true_iff (g : GameLogic) (p : QPoint) :
    g.checkWallCollision p = true ↔
      (p.x < 0 ∨ p.x ≥ g.boardWidth ∨ p.y < 0 ∨ p.y ≥ g.boardHeight) := by
  simp [checkWallCollision, or_assoc]

theorem checkWallCollision_eq_false_iff (g : GameLogic) (p : QPoint) :
    g.checkWallCollision p = false ↔ g.InBoard p := by
  simp only [checkWallCollision, InBoard, Bool.or_eq_false_iff, decide_eq_false_iff_not]
  constructor
  · rintro ⟨⟨⟨h1, h2⟩, h3⟩, h4⟩
    exact ⟨by omega, by omega, by omega, by omega⟩
  · rintro ⟨h1, h2, h3, h4⟩
    exact ⟨⟨⟨by omega, by omega⟩, by omega⟩, by omega⟩

theorem checkFoodCollision_eq_true_iff (g : GameLogic) (p : QPoint) :
    g.checkFoodCollision p = true ↔ p = g.food.position := by
  simp [checkFoodCollision, Food.getPosition]

theorem checkSelfCollision_eq_true_iff (g : GameLogic) (p : QPoint) :
    g.checkSelfCollision p = true ↔ p ∈ g.snake.body.tail := by
  simp [checkSelfCollision, Snake.getBody]

theorem handleGameOver_of_running (g : GameLogic) (h : g.state = GameState.Running) :
    g.handleGameOver =
      ({ g with timerActive := false, state := GameState.GameOver },
       [Event.gameStateChanged GameState.GameOver, Event.gameOver g.score]) := by
  simp [handleGameOver, setState, h]

theorem nextHead_eq (g : GameLogic) :
    g.snake.getHead + DirectionHelper.toOffset g.snake.getDirection = g.nextHead := rfl

/-- A tick that neither hits a wall nor eats: the snake moves, then the
self-collision check decides. -/
theorem onGameTick_move_eq (g : GameLogic)
    (hrun : g.state = GameState.Running)
    (hin : g.InBoard g.nextHead)
    (hfood : g.nextHead ≠ g.food.position) :
    g.onGameTick =
      if g.snake.move.getHead ∈ g.snake.move.body.tail then
        some ({ g with snake := g.snake.move, timerActive := false, state := GameState.GameOver },
          [Event.gameStateChanged GameState.GameOver, Event.gameOver g.score])
      else some ({ g with snake := g.snake.move }, [Event.snakeMoved g.snake.move.body]) := by
  have hwall : g.checkWallCollision g.nextHead = false :=
    (checkWallCollision_eq_false_iff g _).2 hin
  have hf : g.checkFoodCollision g.nextHead = false := by
    rw [← Bool.not_eq_true, checkFoodCollision_eq_true_iff]; exact hfood
  simp only [onGameTick, hrun, nextHead_eq, hwall, hf, checkSelfCollision_eq_true_iff]
  by_cases hc : g.snake.move.getHead ∈ g.snake.move.body.tail
  · simp [hc, handleGameOver, setState]
  · simp [hc, Snake.getBody]

end GameLogic

theorem QPoint.add_def (a b : QPoint) : a + b = ⟨a.x + b.x, a.y + b.y⟩ := rfl

theorem QPoint.mul_def (p : QPoint) (k : Int) : p * k = ⟨p.x * k, p.y * k⟩ := rfl

theorem Snake.reset_three (s : Snake) (start : QPoint) :
    s.reset start Constants.kInitialSnakeLength Direction.Right =
      ⟨[start, ⟨start.x - 1, start.y⟩, ⟨start.x - 2, start.y⟩], Direction.Right⟩ := by
  obtain ⟨sx, sy⟩ := start
  have h3 : List.range (3 : Int).toNat = [0, 1, 2] := rfl
  simp only [Snake.reset, Constants.kInitialSnakeLength, h3, DirectionHelper.toOffset,
    List.map_cons, List.map_nil, QPoint.add_def, QPoint.mul_def, Int.ofNat_eq_coe]
  simp
  omega

theorem firstCandidate_inRange : RandomGenerator.InRange firstCandidate :=
  fun _ _ _ h => ⟨le_refl _, h⟩

namespace Food

theorem mem_getAvailablePositions (f : Food) (ex : List QPoint) (p : QPoint) :
    p ∈ f.getAvailablePositions ex ↔ f.InBoard p ∧ p ∉ ex := by
  obtain ⟨px, py⟩ := p
  simp only [getAvailablePositions, InBoard, List.mem_flatMap, List.mem_filter, List.mem_map,
    List.mem_range, Int.lt_toNat, QPoint.mk.injEq, Bool.not_eq_true',
    decide_eq_false_iff_not, List.elem_eq_mem, Int.ofNat_eq_coe]
  constructor
  · rintro ⟨a, ha, ⟨b, hb, rfl, rfl⟩, hex⟩
    exact ⟨⟨by omega, ha, by omega, hb⟩, hex⟩
  · rintro ⟨⟨h1, h2, h3, h4⟩, hex⟩
    refine ⟨px.toNat, by omega, ⟨py.toNat, by omega, by omega, by omega⟩, hex⟩

theorem pairwise_getAvailablePositions (f : Food) (ex : List QPoint) :
    (f.getAvailablePositions ex).Pairwise QPoint.lexLt := by
  unfold getAvailablePositions
  rw [List.pairwise_flatMap]
  constructor
  · intro a _
    apply List.Pairwise.filter
    rw [List.pairwise_map]
    exact (List.pairwise_lt_range _).imp fun {y1 y2} h => Or.inr ⟨rfl, by simpa using h⟩
  · refine (List.pairwise_lt_range _).imp ?_
    intro a1 a2 h p hp q hq
    simp only [List.mem_filter, List.mem_map] at hp hq
    obtain ⟨⟨_, _, rfl⟩, _⟩ := hp
    obtain ⟨⟨_, _, rfl⟩, _⟩ := hq
    exact Or.inl (by simpa using h)

theorem nodup_getAvailablePositions (f : Food) (ex : List QPoint) :
    (f.getAvailablePositions ex).Nodup := by
  refine (pairwise_getAvailablePositions f ex).imp ?_
  intro a b h hab
  subst hab
  rcases h with h | ⟨_, h⟩ <;> omega

theorem getAvailablePositions_eq_nil_iff (f : Food) (ex : List QPoint) :
    f.getAvailablePositions ex = [] ↔ ∀ p, f.InBoard p → p ∈ ex := by
  rw [List.eq_nil_iff_forall_not_mem]
  constructor
  · intro h p hp
    by_contra hex
    exact h p ((mem_getAvailablePositions f ex p).2 ⟨hp, hex⟩)
  · intro h p hp
    obtain ⟨hin, hex⟩ := (mem_getAvailablePositions f ex p).1 hp
    exact hex (h p hin)

theorem respawn_of_nil (f : Food) (ex : List QPoint) (h : f.getAvailablePositions ex = []) :
    f.respawn ex = some (false, f) := by
  simp [respawn, h]

theorem respawn_of_index (f : Food) (ex : List QPoint) (k : Nat) (p : QPoint)
    (hk : f.randomGenerator f.rngCalls 0 (((f.getAvailablePositions ex).length : Int) - 1) = k)
    (hp : (f.getAvailablePositions ex)[k]? = some p) :
    f.respawn ex = some (true, { f with position := p, rngCalls := f.rngCalls + 1 }) := by
  have hne : f.getAvailablePositions ex ≠ [] := by
    intro h; rw [h] at hp; simp at hp
  simp [respawn, hne, hk, hp]

theorem respawn_of_inRange (f : Food) (ex : List QPoint) (hgen : f.randomGenerator.InRange)
    (hne : f.getAvailablePositions ex ≠ []) :
    ∃ p, p ∈ f.getAvailablePositions ex ∧
      f.respawn ex = some (true, { f with position := p, rngCalls := f.rngCalls + 1 }) := by
  have hlen : 0 < (f.getAvailablePositions ex).length := List.length_pos.2 hne
  obtain ⟨h0, h1⟩ := hgen f.rngCalls 0 (((f.getAvailablePositions ex).length : Int) - 1)
    (by omega)
  have hlt : (f.randomGenerator f.rngCalls 0
      (((f.getAvailablePositions ex).length : Int) - 1)).toNat <
      (f.getAvailablePositions ex).length := by omega
  refine ⟨(f.getAvailablePositions ex)[(f.randomGenerator f.rngCalls 0
      (((f.getAvailablePositions ex).length : Int) - 1)).toNat], List.getElem_mem _, ?_⟩
  exact respawn_of_index f ex _ _ (Int.toNat_of_nonneg h0).symm (List.getElem?_eq_getElem hlt)

theorem respawn_fields (f : Food) (ex : List QPoint) (ok : Bool) (f1 : Food)
    (h : f.respawn ex = some (ok, f1)) :
    f1.boardWidth = f.boardWidth ∧ f1.boardHeight = f.boardHeight ∧
    f1.randomGenerator = f.randomGenerator ∧
    (ok = false → f1 = f ∧ f.getAvailablePositions ex = []) ∧
    (ok = true → f1.position ∈ f.getAvailablePositions ex) := by
  unfold respawn at h
  simp only at h
  split at h
  · next hemp =>
    simp only [Option.some.injEq, Prod.mk.injEq] at h
    obtain ⟨rfl, rfl⟩ := h
    exact ⟨rfl, rfl, rfl, fun _ => ⟨rfl, List.isEmpty_iff.1 hemp⟩, fun h => by cases h⟩
  · split at h
    · cases h
    · split at h
      · cases h
      · next p hp =>
        simp only [Option.some.injEq, Prod.mk.injEq] at h
        obtain ⟨rfl, rfl⟩ := h
        exact ⟨rfl, rfl, rfl, (fun h => by cases h), fun _ => List.mem_iff_getElem?.2 ⟨_, hp⟩⟩

end Food

namespace GameLogic

theorem setState_fst (g : GameLogic) (s : GameState) :
    (g.setState s).1 = { g with state := s } := by
  unfold setState
  split
  · rfl
  · next h =>
    have h1 : g.state = s := not_not.1 h
    cases g
    simp_all

theorem handleGameOver_fst (g : GameLogic) :
    g.handleGameOver.1 = { g with timerActive := false, state := GameState.GameOver } := by
  simp only [handleGameOver, setState_fst]

theorem spawnFood_of_nil (g : GameLogic) (h : g.food.getAvailablePositions g.snake.body = []) :
    g.spawnFood = some g.handleGameOver := by
  simp [spawnFood, Snake.getBody, Food.respawn_of_nil _ _ h]

theorem spawnFood_of_inRange (g : GameLogic) (hgen : g.food.randomGenerator.InRange)
    (hne : g.food.getAvailablePositions g.snake.body ≠ []) :
    ∃ p, (g.food.InBoard p ∧ p ∉ g.snake.body) ∧
      g.spawnFood = some ({ g with food :=
        { g.food with position := p, rngCalls := g.food.rngCalls + 1 } },
        [Event.foodSpawned p]) := by
  obtain ⟨p, hp, hres⟩ := Food.respawn_of_inRange g.food g.snake.body hgen hne
  refine ⟨p, (Food.mem_getAvailablePositions _ _ _).1 hp, ?_⟩
  simp [spawnFood, Snake.getBody, hres, Food.getPosition]

theorem body_ne_nil_of_inBoard_nextHead (g : GameLogic) (hin : g.InBoard g.nextHead) :
    g.snake.body ≠ [] := by
  intro h
  obtain ⟨h1, _, h3, _⟩ := hin
  have hx : g.nextHead.x = -1 + (DirectionHelper.toOffset g.snake.currentDirection).x := by
    simp only [nextHead, Snake.getHead, h, Snake.getDirection]; rfl
  have hy : g.nextHead.y = -1 + (DirectionHelper.toOffset g.snake.currentDirection).y := by
    simp only [nextHead, Snake.getHead, h, Snake.getDirection]; rfl
  rw [hx] at h1
  rw [hy] at h3
  cases hd : g.snake.currentDirection <;> rw [hd] at h1 h3 <;>
    simp [DirectionHelper.toOffset] at h1 h3

theorem spawnFood_isSome (g : GameLogic) (hgen : g.food.randomGenerator.InRange) :
    ∃ g1 ev, g.spawnFood = some (g1, ev) := by
  by_cases hnil : g.food.getAvailablePositions g.snake.body = []
  · exact ⟨_, _, spawnFood_of_nil g hnil⟩
  · obtain ⟨p, _, hsp⟩ := spawnFood_of_inRange g hgen hnil
    exact ⟨_, _, hsp⟩

/-- What a returning `spawnFood` has done: either there was no free cell, the
food is untouched and the game is over, or the food sits on a free cell. -/
theorem spawnFood_fields (g g1 : GameLogic) (ev : List Event)
    (h : g.spawnFood = some (g1, ev)) :
    g1.snake = g.snake ∧ g1.score = g.score ∧
    g1.boardWidth = g.boardWidth ∧ g1.boardHeight = g.boardHeight ∧
    g1.food.boardWidth = g.food.boardWidth ∧ g1.food.boardHeight = g.food.boardHeight ∧
    g1.food.randomGenerator = g.food.randomGenerator ∧
    ((g.food.getAvailablePositions g.snake.body = [] ∧ g1.food = g.food ∧
        g1.state = GameState.GameOver ∧ g1.timerActive = false ∧
        ev = g.handleGameOver.2) ∨
     (g1.food.position ∈ g.food.getAvailablePositions g.snake.body ∧
        g1.state = g.state ∧ g1.timerActive = g.timerActive ∧
        ev = [Event.foodSpawned g1.food.position])) := by
  by_cases hnil : g.food.getAvailablePositions g.snake.body = []
  · rw [spawnFood_of_nil g hnil] at h
    have h1 : g1 = g.handleGameOver.1 := by
      have := congrArg (fun o => o.map Prod.fst) h; simpa using this.symm
    have h2 : ev = g.handleGameOver.2 := by
      have := congrArg (fun o => o.map Prod.snd) h; simpa using this.symm
    rw [handleGameOver_fst] at h1
    subst h1
    exact ⟨rfl, rfl, rfl, rfl, rfl, rfl, rfl, Or.inl ⟨hnil, rfl, rfl, rfl, h2⟩⟩
  · cases hr : g.food.respawn g.snake.body with
    | none => simp [spawnFood, Snake.getBody, hr] at h
    | some r =>
      obtain ⟨ok, f⟩ := r
      obtain ⟨hfw, hfh, hfg, hfalse, htrue⟩ := Food.respawn_fields _ _ _ _ hr
      cases ok with
      | false => exact absurd (hfalse rfl).2 hnil
      | true =>
        simp only [spawnFood, Snake.getBody, hr, Option.some.injEq, Prod.mk.injEq] at h
        obtain ⟨rfl, rfl⟩ := h
        exact ⟨rfl, rfl, rfl, rfl, hfw, hfh, hfg, Or.inr ⟨htrue rfl, rfl, rfl, rfl⟩⟩

theorem resetGame_isSome (g : GameLogic) (hgen : g.food.randomGenerator.InRange) :
    ∃ g1 ev, g.resetGame = some (g1, ev) := by
  obtain ⟨g4, ev1, h⟩ := spawnFood_isSome
    { snake := g.snake.reset ⟨Int.tdiv g.boardWidth 2, Int.tdiv g.boardHeight 2⟩
                      Constants.kInitialSnakeLength Direction.Right
      food := g.food.reset g.boardWidth g.boardHeight
      timerActive := false
      state := g.state
      score := g.score
      boardWidth := g.boardWidth
      boardHeight := g.boardHeight } hgen
  cases hr : g.resetGame with
  | some r => exact ⟨r.1, r.2, rfl⟩
  | none =>
    exfalso
    unfold resetGame at hr
    simp [h] at hr

/-- What a returning `resetGame` has done. -/
theorem resetGame_fields (g g1 : GameLogic) (ev : List Event)
    (h : g.resetGame = some (g1, ev)) :
    g1.score = 0 ∧ g1.state = GameState.Ready ∧ g1.timerActive = false ∧
    g1.snake = ⟨[⟨Int.tdiv g.boardWidth 2, Int.tdiv g.boardHeight 2⟩,
                 ⟨Int.tdiv g.boardWidth 2 - 1, Int.tdiv g.boardHeight 2⟩,
                 ⟨Int.tdiv g.boardWidth 2 - 2, Int.tdiv g.boardHeight 2⟩], Direction.Right⟩ ∧
    g1.boardWidth = g.boardWidth ∧ g1.boardHeight = g.boardHeight ∧
    g1.food.boardWidth = g.boardWidth ∧ g1.food.boardHeight = g.boardHeight ∧
    g1.food.randomGenerator = g.food.randomGenerator ∧
    ((∃ c, g1.InBoard c ∧ c ∉ g1.snake.body) →
      g1.InBoard g1.food.position ∧ g1.food.position ∉ g1.snake.body) ∧
    ((∀ c, g1.InBoard c → c ∈ g1.snake.body) → g1.food.position = ⟨-1, -1⟩) ∧
    ∃ ev0, ev = ev0 ++ [Event.snakeMoved g1.snake.body, Event.foodSpawned g1.food.position,
      Event.scoreChanged 0] := by
  unfold resetGame at h
  simp only at h
  split at h
  · cases h
  · next g4 ev1 hsp =>
    obtain ⟨hs, -, hw, hh, hfw, hfh, hfg, hcase⟩ := spawnFood_fields _ _ _ hsp
    simp only [Option.some.injEq, Prod.mk.injEq, setState_fst] at h
    obtain ⟨rfl, rfl⟩ := h
    rw [Snake.reset_three] at hs
    simp only at hs hw hh hfw hfh hfg hcase
    have hinb : ∀ p, (g.food.reset g.boardWidth g.boardHeight).InBoard p ↔
        GameLogic.InBoard { g4 with score := 0, state := GameState.Ready } p := by
      intro p
      simp only [Food.InBoard, InBoard, Food.reset, hw, hh]
    refine ⟨rfl, rfl, ?_, hs, hw, hh, hfw, hfh, hfg, ?_, ?_,
      ⟨ev1 ++ (({ g4 with score := 0 } : GameLogic).setState GameState.Ready).2, ?_⟩⟩
    · rcases hcase with ⟨-, -, -, ht, -⟩ | ⟨-, -, ht, -⟩ <;> exact ht
    · rintro ⟨c, hc, hcb⟩
      rcases hcase with ⟨hnil, -⟩ | ⟨hmem, -⟩
      · exfalso
        have := (Food.getAvailablePositions_eq_nil_iff _ _).1 hnil c ((hinb c).2 hc)
        exact hcb (by rw [Snake.reset_three] at this; simpa [hs] using this)
      · obtain ⟨hin, hnb⟩ := (Food.mem_getAvailablePositions _ _ _).1 hmem
        refine ⟨(hinb _).1 hin, ?_⟩
        rw [Snake.reset_three] at hnb
        simpa [hs] using hnb
    · intro hall
      rcases hcase with ⟨-, hf, -⟩ | ⟨hmem, -⟩
      · show g4.food.position = _
        rw [hf]; rfl
      · exfalso
        obtain ⟨hin, hnb⟩ := (Food.mem_getAvailablePositions _ _ _).1 hmem
        rw [Snake.reset_three] at hnb
        have := hall _ ((hinb _).1 hin)
        exact hnb (by simpa [hs] using this)
    · simp only [Snake.getBody, Food.getPosition, List.append_assoc]

end GameLogic

/-! ## What every command keeps -/

namespace GameLogic

theorem SameFrame.refl (g : GameLogic) : SameFrame g g := ⟨rfl, rfl, rfl, id⟩

theorem SameFrame.trans {a b c : GameLogic} (h1 : SameFrame a b) (h2 : SameFrame b c) :
    SameFrame a c :=
  ⟨h2.1.trans h1.1, h2.2.1.trans h1.2.1, h2.2.2.1.trans h1.2.2.1, fun h => h2.2.2.2 (h1.2.2.2 h)⟩

theorem sameFrame_of_fields (g g1 : GameLogic) (hw : g1.boardWidth = g.boardWidth)
    (hh : g1.boardHeight = g.boardHeight) (hfw : g1.food.boardWidth = g.food.boardWidth)
    (hfh : g1.food.boardHeight = g.food.boardHeight)
    (hg : g1.food.randomGenerator = g.food.randomGenerator) : SameFrame g g1 :=
  ⟨hw, hh, hg, fun hwf => ⟨by rw [hfw, hw]; exact hwf.1, by rw [hfh, hh]; exact hwf.2⟩⟩

theorem setState_sameFrame (g : GameLogic) (s : GameState) : SameFrame g (g.setState s).1 := by
  rw [setState_fst]; exact sameFrame_of_fields _ _ rfl rfl rfl rfl rfl

theorem handleGameOver_sameFrame (g : GameLogic) : SameFrame g g.handleGameOver.1 := by
  rw [handleGameOver_fst]; exact sameFrame_of_fields _ _ rfl rfl rfl rfl rfl

theorem spawnFood_sameFrame (g g1 : GameLogic) (ev : List Event)
    (h : g.spawnFood = some (g1, ev)) : SameFrame g g1 := by
  obtain ⟨-, -, hw, hh, hfw, hfh, hg, -⟩ := spawnFood_fields g g1 ev h
  exact sameFrame_of_fields _ _ hw hh hfw hfh hg

theorem resetGame_sameFrame (g g1 : GameLogic) (ev : List Event)
    (h : g.resetGame = some (g1, ev)) : SameFrame g g1 ∧ g1.WellFormed := by
  obtain ⟨-, -, -, -, hw, hh, hfw, hfh, hg, -⟩ := resetGame_fields g g1 ev h
  have hwf : g1.WellFormed := ⟨by rw [hfw, hw], by rw [hfh, hh]⟩
  exact ⟨⟨hw, hh, hg, fun _ => hwf⟩, hwf⟩

theorem startGame_sameFrame (g g1 : GameLogic) (ev : List Event)
    (h : g.startGame = some (g1, ev)) : SameFrame g g1 := by
  unfold startGame at h
  split at h
  · cases h
  · next g0 ev0 h0 =>
    have hf0 : SameFrame g g0 := by
      split at h0
      · exact (resetGame_sameFrame g g0 ev0 h0).1
      · simp only [Option.some.injEq, Prod.mk.injEq] at h0
        rw [← h0.1]; exact SameFrame.refl g
    split at h
    · simp only [Option.some.injEq, Prod.mk.injEq] at h
      rw [← h.1]
      exact hf0.trans ((setState_sameFrame g0 GameState.Running).trans
        (sameFrame_of_fields _ _ rfl rfl rfl rfl rfl))
    · simp only [Option.some.injEq, Prod.mk.injEq] at h
      rw [← h.1]; exact hf0

theorem onGameTick_sameFrame (g g1 : GameLogic) (ev : List Event)
    (h : g.onGameTick = some (g1, ev)) : SameFrame g g1 := by
  unfold onGameTick at h
  split at h
  · simp only [Option.some.injEq, Prod.mk.injEq] at h
    rw [← h.1]; exact SameFrame.refl g
  · simp only at h
    split at h
    · simp only [Option.some.injEq] at h
      have : g1 = g.handleGameOver.1 := by rw [h]
      rw [this]; exact handleGameOver_sameFrame g
    · split at h
      · cases h
      · next g4 ev1 hmoved =>
        have hf4 : SameFrame g g4 := by
          split at hmoved
          · split at hmoved
            · cases hmoved
            · next g3 ev3 hsp =>
              simp only [Option.some.injEq, Prod.mk.injEq] at hmoved
              rw [← hmoved.1]
              have hsf := spawnFood_sameFrame _ _ _ hsp
              exact SameFrame.trans (sameFrame_of_fields g _ rfl rfl rfl rfl rfl) hsf
          · simp only [Option.some.injEq, Prod.mk.injEq] at hmoved
            rw [← hmoved.1]
            exact sameFrame_of_fields g _ rfl rfl rfl rfl rfl
        split at h
        · simp only [Option.some.injEq, Prod.mk.injEq] at h
          rw [← h.1]; exact hf4.trans (handleGameOver_sameFrame g4)
        · simp only [Option.some.injEq, Prod.mk.injEq] at h
          rw [← h.1]; exact hf4

theorem step_sameFrame (g g1 : GameLogic) (ev : List Event) (c : Command)
    (h : g.step c = some (g1, ev)) : SameFrame g g1 := by
  cases c with
  | startGame => exact startGame_sameFrame g g1 ev h
  | pauseGame =>
    simp only [step, Option.some.injEq] at h
    have : g1 = g.pauseGame.1 := by rw [h]
    subst this
    unfold pauseGame
    split
    · exact (sameFrame_of_fields g _ rfl rfl rfl rfl rfl).trans (setState_sameFrame _ _)
    · exact SameFrame.refl g
  | resumeGame =>
    simp only [step, Option.some.injEq] at h
    have : g1 = g.resumeGame.1 := by rw [h]
    subst this
    unfold resumeGame
    split
    · exact (setState_sameFrame g _).trans (sameFrame_of_fields _ _ rfl rfl rfl rfl rfl)
    · exact SameFrame.refl g
  | resetGame => exact (resetGame_sameFrame g g1 ev h).1
  | setDirection d =>
    simp only [step, Option.some.injEq] at h
    have : g1 = (g.setDirection d).1 := by rw [h]
    subst this
    unfold setDirection
    split
    · exact sameFrame_of_fields g _ rfl rfl rfl rfl rfl
    · exact SameFrame.refl g
  | tick => exact onGameTick_sameFrame g g1 ev h

end GameLogic

/-- In every reachable state the board is the one given to the constructor,
the generator is the one given to the constructor, and food and engine agree
on the board. -/
theorem Reachable.frame {w h : Int} {gen : RandomGenerator} {g : GameLogic}
    (hr : Reachable w h gen g) :
    g.boardWidth = w ∧ g.boardHeight = h ∧ g.food.randomGenerator = gen ∧ g.WellFormed := by
  induction hr with
  | init => exact ⟨rfl, rfl, rfl, rfl, rfl⟩
  | step c _ hstep ih =>
    obtain ⟨hw, hh, hg, hwf⟩ := GameLogic.step_sameFrame _ _ _ c hstep
    exact ⟨hw.trans ih.1, hh.trans ih.2.1, hg.trans ih.2.2.1, hwf ih.2.2.2⟩

/-- A run from a reachable state ends in a reachable state. -/
theorem Reachable.run {w h : Int} {gen : RandomGenerator} (cs : List Command) :
    ∀ {g g1 : GameLogic} {ev : List Event}, Reachable w h gen g →
      g.run cs = some (g1, ev) → Reachable w h gen g1 := by
  induction cs with
  | nil =>
    intro g g1 ev hr hrun
    simp only [GameLogic.run, Option.some.injEq, Prod.mk.injEq] at hrun
    rw [← hrun.1]; exact hr
  | cons c cs ih =>
    intro g g1 ev hr hrun
    simp only [GameLogic.run] at hrun
    split at hrun
    · cases hrun
    · next g2 ev2 hstep =>
      split at hrun
      · cases hrun
      · next g3 ev3 hrest =>
        simp only [Option.some.injEq, Prod.mk.injEq] at hrun
        rw [← hrun.1]
        exact ih (Reachable.step c hr hstep) hrest

/-! ## Every way a command can return, and what the reachable states keep -/

namespace GameLogic

theorem onGameTick_not_running (g : GameLogic) (h : g.state ≠ GameState.Running) :
    g.onGameTick = some (g, []) := by
  unfold onGameTick
  rw [if_pos h]

theorem onGameTick_wall_eq (g : GameLogic) (hrun : g.state = GameState.Running)
    (hout : ¬ g.InBoard g.nextHead) :
    g.onGameTick = some ({ g with timerActive := false, state := GameState.GameOver },
      [Event.gameStateChanged GameState.GameOver, Event.gameOver g.score]) := by
  have hwall : g.checkWallCollision g.nextHead = true := by
    rw [← Bool.not_eq_false, checkWallCollision_eq_false_iff]; exact hout
  unfold onGameTick
  rw [if_neg (not_not.2 hrun)]
  simp only [nextHead_eq, hwall, if_true, handleGameOver_of_running g hrun]

/-- A tick that eats: the snake grows, the score goes up, `spawnFood` runs, and
the self-collision check follows whatever `spawnFood` did. -/
theorem onGameTick_eat_eq (g : GameLogic) (hrun : g.state = GameState.Running)
    (hin : g.InBoard g.nextHead) (hfood : g.nextHead = g.food.position) :
    g.onGameTick =
      match ({ g with snake := g.snake.grow,
                      score := g.score + Constants.kScorePerFood } : GameLogic).spawnFood with
      | none => none
      | some (g3, ev) =>
        if g3.snake.getHead ∈ g3.snake.body.tail then
          some (g3.handleGameOver.1,
            Event.scoreChanged (g.score + Constants.kScorePerFood) :: ev ++ g3.handleGameOver.2)
        else
          some (g3, Event.scoreChanged (g.score + Constants.kScorePerFood) :: ev ++
            [Event.snakeMoved g3.snake.body]) := by
  have hwall : g.checkWallCollision g.nextHead = false :=
    (checkWallCollision_eq_false_iff g _).2 hin
  have hf : g.checkFoodCollision g.nextHead = true :=
    (checkFoodCollision_eq_true_iff g _).2 hfood
  unfold onGameTick
  rw [if_neg (not_not.2 hrun)]
  simp only [nextHead_eq, hwall, hf, Bool.false_eq_true, if_false, if_true,
    checkSelfCollision_eq_true_iff, Snake.getBody]
  cases ({ g with snake := g.snake.grow,
                  score := g.score + Constants.kScorePerFood } : GameLogic).spawnFood with
  | none => rfl
  | some r => rfl

theorem move_eq_of_inBoard (g : GameLogic) (hin : g.InBoard g.nextHead) :
    g.snake.move = ⟨g.nextHead :: g.snake.body.dropLast, g.snake.currentDirection⟩ := by
  have hne := body_ne_nil_of_inBoard_nextHead g hin
  have hb := Snake.move_body g.snake hne
  have hd := Snake.move_currentDirection g.snake
  cases hm : g.snake.move with
  | mk b d =>
    rw [hm] at hb hd
    simp only at hb hd
    rw [hb, hd]; rfl

theorem grow_eq_of_inBoard (g : GameLogic) (hin : g.InBoard g.nextHead) :
    g.snake.grow = ⟨g.nextHead :: g.snake.body, g.snake.currentDirection⟩ := by
  have hne := body_ne_nil_of_inBoard_nextHead g hin
  have hb := Snake.grow_body g.snake hne
  have hd := Snake.grow_currentDirection g.snake
  cases hm : g.snake.grow with
  | mk b d =>
    rw [hm] at hb hd
    simp only at hb hd
    rw [hb, hd]; rfl

/-- Every way a tick can return, with what it leaves behind and what it publishes. -/
theorem onGameTick_inv (g g1 : GameLogic) (ev : List Event)
    (h : g.onGameTick = some (g1, ev)) :
    (g.state ≠ GameState.Running ∧ g1 = g ∧ ev = []) ∨
    (g.state = GameState.Running ∧ ¬ g.InBoard g.nextHead ∧
      g1 = { g with timerActive := false, state := GameState.GameOver } ∧
      ev = [Event.gameStateChanged GameState.GameOver, Event.gameOver g.score]) ∨
    (g.state = GameState.Running ∧ g.InBoard g.nextHead ∧ g.nextHead ≠ g.food.position ∧
      g1.snake = ⟨g.nextHead :: g.snake.body.dropLast, g.snake.currentDirection⟩ ∧
      g1.food = g.food ∧ g1.score = g.score ∧
      ((g.nextHead ∉ g.snake.body.dropLast ∧ g1.state = GameState.Running ∧
          g1.timerActive = g.timerActive ∧
          ev = [Event.snakeMoved (g.nextHead :: g.snake.body.dropLast)]) ∨
       (g.nextHead ∈ g.snake.body.dropLast ∧ g1.state = GameState.GameOver ∧
          g1.timerActive = false ∧
          ev = [Event.gameStateChanged GameState.GameOver, Event.gameOver g.score]))) ∨
    (g.state = GameState.Running ∧ g.InBoard g.nextHead ∧ g.nextHead = g.food.position ∧
      g1.snake = ⟨g.nextHead :: g.snake.body, g.snake.currentDirection⟩ ∧
      g1.score = g.score + 10 ∧
      ((g.food.getAvailablePositions (g.nextHead :: g.snake.body) = [] ∧
          g1.food = g.food ∧ g1.state = GameState.GameOver ∧ g1.timerActive = false ∧
          ((g.nextHead ∉ g.snake.body ∧
              ev = [Event.scoreChanged (g.score + 10),
                    Event.gameStateChanged GameState.GameOver, Event.gameOver (g.score + 10),
                    Event.snakeMoved (g.nextHead :: g.snake.body)]) ∨
           (g.nextHead ∈ g.snake.body ∧
              ev = [Event.scoreChanged (g.score + 10),
                    Event.gameStateChanged GameState.GameOver, Event.gameOver (g.score + 10),
                    Event.gameOver (g.score + 10)]))) ∨
       (g1.food.position ∈ g.food.getAvailablePositions (g.nextHead :: g.snake.body) ∧
          ((g.nextHead ∉ g.snake.body ∧ g1.state = GameState.Running ∧
              g1.timerActive = g.timerActive ∧
              ev = [Event.scoreChanged (g.score + 10), Event.foodSpawned g1.food.position,
                    Event.snakeMoved (g.nextHead :: g.snake.body)]) ∨
           (g.nextHead ∈ g.snake.body ∧ g1.state = GameState.GameOver ∧
              g1.timerActive = false ∧
              ev = [Event.scoreChanged (g.score + 10), Event.foodSpawned g1.food.position,
                    Event.gameStateChanged GameState.GameOver,
                    Event.gameOver (g.score + 10)]))))) := by
  by_cases hrun : g.state = GameState.Running
  swap
  · rw [onGameTick_not_running g hrun] at h
    simp only [Option.some.injEq, Prod.mk.injEq] at h
    exact Or.inl ⟨hrun, h.1.symm, h.2.symm⟩
  by_cases hin : g.InBoard g.nextHead
  swap
  · rw [onGameTick_wall_eq g hrun hin] at h
    simp only [Option.some.injEq, Prod.mk.injEq] at h
    exact Or.inr (Or.inl ⟨hrun, hin, h.1.symm, h.2.symm⟩)
  by_cases hfood : g.nextHead = g.food.position
  swap
  · refine Or.inr (Or.inr (Or.inl ⟨hrun, hin, hfood, ?_⟩))
    rw [onGameTick_move_eq g hrun hin hfood, move_eq_of_inBoard g hin] at h
    simp only [Snake.getHead, List.tail_cons] at h
    by_cases hc : g.nextHead ∈ g.snake.body.dropLast
    · rw [if_pos hc] at h
      simp only [Option.some.injEq, Prod.mk.injEq] at h
      obtain ⟨rfl, rfl⟩ := h
      exact ⟨rfl, rfl, rfl, Or.inr ⟨hc, rfl, rfl, rfl⟩⟩
    · rw [if_neg hc] at h
      simp only [Option.some.injEq, Prod.mk.injEq] at h
      obtain ⟨rfl, rfl⟩ := h
      exact ⟨rfl, rfl, rfl, Or.inl ⟨hc, hrun, rfl, rfl⟩⟩
  · refine Or.inr (Or.inr (Or.inr ⟨hrun, hin, hfood, ?_⟩))
    rw [onGameTick_eat_eq g hrun hin hfood] at h
    split at h
    · cases h
    · next g3 ev3 hsp =>
      obtain ⟨hs, hsc, -, -, -, -, -, hcase⟩ := spawnFood_fields _ _ _ hsp
      simp only at hs hsc hcase
      rw [grow_eq_of_inBoard g hin] at hs hcase
      simp only at hcase
      have hk : Constants.kScorePerFood = 10 := rfl
      rw [hk] at hsc h hcase
      rw [hs] at h
      simp only [Snake.getHead, List.tail_cons] at h
      by_cases hc : g.nextHead ∈ g.snake.body
      · rw [if_pos hc] at h
        simp only [Option.some.injEq, Prod.mk.injEq] at h
        obtain ⟨rfl, rfl⟩ := h
        rw [handleGameOver_fst]
        refine ⟨hs, hsc, ?_⟩
        rcases hcase with ⟨hnil, hf, hst, ht, hev⟩ | ⟨hmem, hst, ht, hev⟩
        · refine Or.inl ⟨hnil, hf, rfl, rfl, Or.inr ⟨hc, ?_⟩⟩
          rw [hev]
          simp [handleGameOver, setState, hrun, hst, hsc]
        · refine Or.inr ⟨hmem, Or.inr ⟨hc, rfl, rfl, ?_⟩⟩
          rw [hev]
          simp [handleGameOver, setState, hrun, hst, hsc]
      · rw [if_neg hc] at h
        simp only [Option.some.injEq, Prod.mk.injEq] at h
        obtain ⟨rfl, rfl⟩ := h
        refine ⟨hs, hsc, ?_⟩
        rcases hcase with ⟨hnil, hf, hst, ht, hev⟩ | ⟨hmem, hst, ht, hev⟩
        · refine Or.inl ⟨hnil, hf, hst, ht, Or.inl ⟨hc, ?_⟩⟩
          rw [hev]
          simp [handleGameOver, setState, hrun]
        · refine Or.inr ⟨hmem, Or.inl ⟨hc, hst.trans hrun, ht, ?_⟩⟩
          rw [hev]
          simp

theorem startGame_noop (g : GameLogic)
    (h : g.state = GameState.Running ∨ g.state = GameState.Paused) :
    g.startGame = some (g, []) := by
  unfold startGame
  rcases h with h | h <;> simp [h]

theorem startGame_inv (g g1 : GameLogic) (ev : List Event)
    (h : g.startGame = some (g1, ev)) :
    ((g.state = GameState.Running ∨ g.state = GameState.Paused) ∧ g1 = g ∧ ev = []) ∨
    ((g.state = GameState.Ready ∨ g.state = GameState.GameOver) ∧
      ∃ g0 ev0, g.resetGame = some (g0, ev0) ∧
        g1 = { g0 with state := GameState.Running, timerActive := true } ∧
        ev = ev0 ++ [Event.gameStateChanged GameState.Running,
          Event.snakeMoved g0.snake.body, Event.foodSpawned g0.food.position,
          Event.scoreChanged 0]) := by
  by_cases hs : g.state = GameState.Ready ∨ g.state = GameState.GameOver
  · right
    refine ⟨hs, ?_⟩
    unfold startGame at h
    rw [if_pos hs] at h
    split at h
    · cases h
    · next g0 ev0 h0 =>
      obtain ⟨hsc, hst, -⟩ := resetGame_fields g g0 ev0 h0
      rw [if_pos hst] at h
      simp only [Option.some.injEq, Prod.mk.injEq, setState_fst] at h
      obtain ⟨rfl, rfl⟩ := h
      refine ⟨g0, ev0, h0, rfl, ?_⟩
      simp [setState, hst, hsc, Snake.getBody, Food.getPosition]
  · left
    have hs2 : g.state = GameState.Running ∨ g.state = GameState.Paused := by
      cases hst : g.state <;> simp_all
    rw [startGame_noop g hs2] at h
    simp only [Option.some.injEq, Prod.mk.injEq] at h
    exact ⟨hs2, h.1.symm, h.2.symm⟩

theorem pauseGame_of_running (g : GameLogic) (h : g.state = GameState.Running) :
    g.pauseGame = ({ g with timerActive := false, state := GameState.Paused },
      [Event.gameStateChanged GameState.Paused]) := by
  simp [pauseGame, setState, h]

theorem pauseGame_of_not_running (g : GameLogic) (h : g.state ≠ GameState.Running) :
    g.pauseGame = (g, []) := by
  simp [pauseGame, h]

theorem resumeGame_of_paused (g : GameLogic) (h : g.state = GameState.Paused) :
    g.resumeGame = ({ g with state := GameState.Running, timerActive := true },
      [Event.gameStateChanged GameState.Running]) := by
  simp [resumeGame, setState, h]

theorem resumeGame_of_not_paused (g : GameLogic) (h : g.state ≠ GameState.Paused) :
    g.resumeGame = (g, []) := by
  simp [resumeGame, h]

theorem setDirection_of_running (g : GameLogic) (d : Direction)
    (h : g.state = GameState.Running) :
    g.setDirection d = ({ g with snake := (g.snake.setDirection d).2 }, []) := by
  simp [setDirection, h]

theorem setDirection_of_not_running (g : GameLogic) (d : Direction)
    (h : g.state ≠ GameState.Running) :
    g.setDirection d = (g, []) := by
  simp [setDirection, h]

theorem snake_setDirection_body (s : Snake) (d : Direction) :
    (s.setDirection d).2.body = s.body := by
  unfold Snake.setDirection; split <;> rfl

/-- One step of the engine keeps "the timer runs exactly while Running". -/
theorem step_timer (g g1 : GameLogic) (ev : List Event) (c : Command)
    (h : g.step c = some (g1, ev))
    (hinv : g.timerActive = true ↔ g.state = GameState.Running) :
    g1.timerActive = true ↔ g1.state = GameState.Running := by
  cases c with
  | startGame =>
    rcases startGame_inv g g1 ev h with ⟨-, rfl, -⟩ | ⟨-, g0, ev0, -, rfl, -⟩
    · exact hinv
    · simp
  | pauseGame =>
    simp only [step, Option.some.injEq] at h
    by_cases hr : g.state = GameState.Running
    · rw [pauseGame_of_running g hr] at h
      simp only [Prod.mk.injEq] at h
      rw [← h.1]; simp
    · rw [pauseGame_of_not_running g hr] at h
      simp only [Prod.mk.injEq] at h
      rw [← h.1]; exact hinv
  | resumeGame =>
    simp only [step, Option.some.injEq] at h
    by_cases hr : g.state = GameState.Paused
    · rw [resumeGame_of_paused g hr] at h
      simp only [Prod.mk.injEq] at h
      rw [← h.1]; simp
    · rw [resumeGame_of_not_paused g hr] at h
      simp only [Prod.mk.injEq] at h
      rw [← h.1]; exact hinv
  | resetGame =>
    obtain ⟨-, hst, ht, -⟩ := resetGame_fields g g1 ev h
    simp [hst, ht]
  | setDirection d =>
    simp only [step, Option.some.injEq] at h
    by_cases hr : g.state = GameState.Running
    · rw [setDirection_of_running g d hr] at h
      simp only [Prod.mk.injEq] at h
      rw [← h.1]; exact hinv
    · rw [setDirection_of_not_running g d hr] at h
      simp only [Prod.mk.injEq] at h
      rw [← h.1]; exact hinv
  | tick =>
    rcases onGameTick_inv g g1 ev h with ⟨-, rfl, -⟩ | ⟨-, -, rfl, -⟩ |
      ⟨hrun, -, -, -, -, -, hc⟩ | ⟨hrun, -, -, -, -, hc⟩
    · exact hinv
    · simp
    · rcases hc with ⟨-, hst, ht, -⟩ | ⟨-, hst, ht, -⟩
      · rw [hst, ht]; simpa [hrun] using hinv
      · simp [hst, ht]
    · rcases hc with ⟨-, -, hst, ht, -⟩ | ⟨-, ⟨-, hst, ht, -⟩ | ⟨-, hst, ht, -⟩⟩
      · simp [hst, ht]
      · rw [hst, ht]; simpa [hrun] using hinv
      · simp [hst, ht]

/-- A returning tick adds 10 to the score when it eats (Running, candidate head
inside the board and on the food) and keeps the score otherwise. -/
theorem onGameTick_score (g g1 : GameLogic) (ev : List Event)
    (h : g.onGameTick = some (g1, ev)) :
    ((g.state = GameState.Running ∧ g.InBoard g.nextHead ∧ g.nextHead = g.food.position) ∧
        g1.score = g.score + 10) ∨
    (¬ (g.state = GameState.Running ∧ g.InBoard g.nextHead ∧ g.nextHead = g.food.position) ∧
        g1.score = g.score) := by
  rcases onGameTick_inv g g1 ev h with ⟨hn, rfl, -⟩ | ⟨-, hout, rfl, -⟩ |
    ⟨-, -, hne, -, -, hsc, -⟩ | ⟨hrun, hin, hfood, -, hsc, -⟩
  · exact Or.inr ⟨fun hh => hn hh.1, rfl⟩
  · exact Or.inr ⟨fun hh => hout hh.2.1, rfl⟩
  · exact Or.inr ⟨fun hh => hne hh.2.2, hsc⟩
  · exact Or.inl ⟨⟨hrun, hin, hfood⟩, hsc⟩

theorem pauseGame_score (g : GameLogic) : g.pauseGame.1.score = g.score := by
  unfold pauseGame
  split
  · rw [setState_fst]
  · rfl

theorem resumeGame_score (g : GameLogic) : g.resumeGame.1.score = g.score := by
  unfold resumeGame
  split
  · simp only [setState_fst]
  · rfl

theorem setDirection_score (g : GameLogic) (d : Direction) :
    (g.setDirection d).1.score = g.score := by
  unfold setDirection
  split <;> rfl

theorem step_score_nonneg (g g1 : GameLogic) (ev : List Event) (c : Command)
    (h : g.step c = some (g1, ev)) (hinv : 0 ≤ g.score) : 0 ≤ g1.score := by
  cases c with
  | startGame =>
    rcases startGame_inv g g1 ev h with ⟨-, rfl, -⟩ | ⟨-, g0, ev0, h0, rfl, -⟩
    · exact hinv
    · obtain ⟨hsc, -⟩ := resetGame_fields g g0 ev0 h0
      show 0 ≤ g0.score
      omega
  | pauseGame =>
    simp only [step, Option.some.injEq] at h
    have h1 : g1 = g.pauseGame.1 := by rw [h]
    rw [h1, pauseGame_score]; exact hinv
  | resumeGame =>
    simp only [step, Option.some.injEq] at h
    have h1 : g1 = g.resumeGame.1 := by rw [h]
    rw [h1, resumeGame_score]; exact hinv
  | resetGame =>
    obtain ⟨hsc, -⟩ := resetGame_fields g g1 ev h
    omega
  | setDirection d =>
    simp only [step, Option.some.injEq] at h
    have h1 : g1 = (g.setDirection d).1 := by rw [h]
    rw [h1, setDirection_score]; exact hinv
  | tick =>
    rcases onGameTick_score g g1 ev h with ⟨-, hsc⟩ | ⟨-, hsc⟩ <;> omega

/-- One step keeps: a placed food is off the snake, or the game is over with
the food under the head and the body over every board cell. -/
theorem step_food (g g1 : GameLogic) (ev : List Event) (c : Command)
    (h : g.step c = some (g1, ev)) (hwf : g.WellFormed)
    (hinv : g.food.position ≠ ⟨-1, -1⟩ →
      g.food.position ∉ g.snake.body ∨
      (g.state = GameState.GameOver ∧ g.snake.getHead = g.food.position ∧
        ∀ c, g.InBoard c → c ∈ g.snake.body)) :
    g1.food.position ≠ ⟨-1, -1⟩ →
      g1.food.position ∉ g1.snake.body ∨
      (g1.state = GameState.GameOver ∧ g1.snake.getHead = g1.food.position ∧
        ∀ c, g1.InBoard c → c ∈ g1.snake.body) := by
  have hreset : ∀ g0 ev0, g.resetGame = some (g0, ev0) →
      g0.food.position ≠ ⟨-1, -1⟩ → g0.food.position ∉ g0.snake.body := by
    intro g0 ev0 h0 hplaced
    obtain ⟨-, -, -, -, -, -, -, -, -, hfree, hfull, -⟩ := resetGame_fields g g0 ev0 h0
    by_cases hex : ∃ c, g0.InBoard c ∧ c ∉ g0.snake.body
    · exact (hfree hex).2
    · exfalso
      apply hplaced
      apply hfull
      intro c hc
      by_contra hcb
      exact hex ⟨c, hc, hcb⟩
  have hkeep : g.state ≠ GameState.GameOver → g.food.position ≠ ⟨-1, -1⟩ →
      g.food.position ∉ g.snake.body := by
    intro hs hp
    rcases hinv hp with hd | ⟨hgo, -⟩
    · exact hd
    · exact absurd hgo hs
  cases c with
  | startGame =>
    rcases startGame_inv g g1 ev h with ⟨-, rfl, -⟩ | ⟨-, g0, ev0, h0, rfl, -⟩
    · exact hinv
    · intro hp
      exact Or.inl (hreset g0 ev0 h0 hp)
  | pauseGame =>
    simp only [step, Option.some.injEq] at h
    by_cases hr : g.state = GameState.Running
    · rw [pauseGame_of_running g hr] at h
      simp only [Prod.mk.injEq] at h
      rw [← h.1]
      intro hp
      exact Or.inl (hkeep (by rw [hr]; decide) hp)
    · rw [pauseGame_of_not_running g hr] at h
      simp only [Prod.mk.injEq] at h
      rw [← h.1]; exact hinv
  | resumeGame =>
    simp only [step, Option.some.injEq] at h
    by_cases hr : g.state = GameState.Paused
    · rw [resumeGame_of_paused g hr] at h
      simp only [Prod.mk.injEq] at h
      rw [← h.1]
      intro hp
      exact Or.inl (hkeep (by rw [hr]; decide) hp)
    · rw [resumeGame_of_not_paused g hr] at h
      simp only [Prod.mk.injEq] at h
      rw [← h.1]; exact hinv
  | resetGame =>
    intro hp
    exact Or.inl (hreset g1 ev h hp)
  | setDirection d =>
    simp only [step, Option.some.injEq] at h
    by_cases hr : g.state = GameState.Running
    · rw [setDirection_of_running g d hr] at h
      simp only [Prod.mk.injEq] at h
      rw [← h.1]
      intro hp
      left
      show g.food.position ∉ (g.snake.setDirection d).2.body
      rw [snake_setDirection_body]
      exact hkeep (by rw [hr]; decide) hp
    · rw [setDirection_of_not_running g d hr] at h
      simp only [Prod.mk.injEq] at h
      rw [← h.1]; exact hinv
  | tick =>
    have hframe := onGameTick_sameFrame g g1 ev h
    rcases onGameTick_inv g g1 ev h with ⟨-, rfl, -⟩ | ⟨hrun, -, rfl, -⟩ |
      ⟨hrun, -, hne, hs, hf, -, -⟩ | ⟨hrun, -, hfood, hs, -, hc⟩
    · exact hinv
    · intro hp
      exact Or.inl (hkeep (by rw [hrun]; decide) hp)
    · intro hp
      left
      rw [hf] at hp ⊢
      rw [hs]
      have hnb := hkeep (by rw [hrun]; decide) hp
      intro hmem
      rcases List.mem_cons.1 hmem with heq | hmem
      · exact hne heq.symm
      · exact hnb (List.mem_of_mem_dropLast hmem)
    · rcases hc with ⟨hnil, hf, hst, -, -⟩ | ⟨hmem, -⟩
      · intro _
        right
        refine ⟨hst, ?_, ?_⟩
        · rw [hs, hf, ← hfood]; rfl
        · intro c hc
          rw [hs]
          apply (Food.getAvailablePositions_eq_nil_iff _ _).1 hnil c
          obtain ⟨h1, h2, h3, h4⟩ := hc
          rw [hframe.1] at h2
          rw [hframe.2.1] at h4
          exact ⟨h1, by rw [hwf.1]; exact h2, h3, by rw [hwf.2]; exact h4⟩
      · intro _
        left
        rw [hs]
        exact ((Food.mem_getAvailablePositions _ _ _).1 hmem).2

theorem getHead_inBoard_center (g : GameLogic) (hw : 1 ≤ g.boardWidth)
    (hh : 1 ≤ g.boardHeight) :
    g.InBoard ⟨Int.tdiv g.boardWidth 2, Int.tdiv g.boardHeight 2⟩ := by
  unfold InBoard
  simp only
  rw [Int.tdiv_eq_ediv (by omega) (by omega), Int.tdiv_eq_ediv (by omega) (by omega)]
  omega

/-- One step keeps the head inside the board while the game is Running or
Paused, on a board with at least one cell. -/
theorem step_head (g g1 : GameLogic) (ev : List Event) (c : Command)
    (h : g.step c = some (g1, ev)) (hw : 1 ≤ g.boardWidth) (hh : 1 ≤ g.boardHeight)
    (hinv : g.state = GameState.Running ∨ g.state = GameState.Paused →
      g.InBoard g.snake.getHead) :
    g1.state = GameState.Running ∨ g1.state = GameState.Paused →
      g1.InBoard g1.snake.getHead := by
  cases c with
  | startGame =>
    rcases startGame_inv g g1 ev h with ⟨-, rfl, -⟩ | ⟨-, g0, ev0, h0, rfl, -⟩
    · exact hinv
    · intro _
      obtain ⟨-, -, -, hsn, hbw, hbh, -⟩ := resetGame_fields g g0 ev0 h0
      have := getHead_inBoard_center g hw hh
      unfold InBoard at this ⊢
      simp only [hsn, Snake.getHead, hbw, hbh]
      exact this
  | pauseGame =>
    simp only [step, Option.some.injEq] at h
    by_cases hr : g.state = GameState.Running
    · rw [pauseGame_of_running g hr] at h
      simp only [Prod.mk.injEq] at h
      rw [← h.1]
      intro _
      exact hinv (Or.inl hr)
    · rw [pauseGame_of_not_running g hr] at h
      simp only [Prod.mk.injEq] at h
      rw [← h.1]; exact hinv
  | resumeGame =>
    simp only [step, Option.some.injEq] at h
    by_cases hr : g.state = GameState.Paused
    · rw [resumeGame_of_paused g hr] at h
      simp only [Prod.mk.injEq] at h
      rw [← h.1]
      intro _
      exact hinv (Or.inr hr)
    · rw [resumeGame_of_not_paused g hr] at h
      simp only [Prod.mk.injEq] at h
      rw [← h.1]; exact hinv
  | resetGame =>
    obtain ⟨-, hst, -⟩ := resetGame_fields g g1 ev h
    intro hs
    rw [hst] at hs
    rcases hs with hs | hs <;> cases hs
  | setDirection d =>
    simp only [step, Option.some.injEq] at h
    by_cases hr : g.state = GameState.Running
    · rw [setDirection_of_running g d hr] at h
      simp only [Prod.mk.injEq] at h
      rw [← h.1]
      intro _
      have hb := snake_setDirection_body g.snake d
      have := hinv (Or.inl hr)
      unfold InBoard at this ⊢
      simp only [Snake.getHead, hb] at this ⊢
      exact this
    · rw [setDirection_of_not_running g d hr] at h
      simp only [Prod.mk.injEq] at h
      rw [← h.1]; exact hinv
  | tick =>
    have hframe := onGameTick_sameFrame g g1 ev h
    have hnext : g.InBoard g.nextHead → g1.snake.getHead = g.nextHead →
        g1.InBoard g1.snake.getHead := by
      intro hin heq
      rw [heq]
      unfold InBoard at hin ⊢
      rw [hframe.1, hframe.2.1]
      exact hin
    rcases onGameTick_inv g g1 ev h with ⟨-, rfl, -⟩ | ⟨-, -, rfl, -⟩ |
      ⟨-, hin, -, hs, -, -, -⟩ | ⟨-, hin, -, hs, -, -⟩
    · exact hinv
    · intro hs
      rcases hs with hs | hs <;> cases hs
    · intro _
      exact hnext hin (by rw [hs]; rfl)
    · intro _
      exact hnext hin (by rw [hs]; rfl)

end GameLogic

/-- In every reachable state the timer runs exactly while the state is Running. -/
theorem Reachable.timer {w h : Int} {gen : RandomGenerator} {g : GameLogic}
    (hr : Reachable w h gen g) : g.timerActive = true ↔ g.state = GameState.Running := by
  induction hr with
  | init => simp [GameLogic.new]
  | step c _ hstep ih => exact GameLogic.step_timer _ _ _ c hstep ih

theorem Reachable.score_nonneg {w h : Int} {gen : RandomGenerator} {g : GameLogic}
    (hr : Reachable w h gen g) : 0 ≤ g.score := by
  induction hr with
  | init => exact le_refl _
  | step c _ hstep ih => exact GameLogic.step_score_nonneg _ _ _ c hstep ih

theorem Reachable.food {w h : Int} {gen : RandomGenerator} {g : GameLogic}
    (hr : Reachable w h gen g) :
    g.food.position ≠ ⟨-1, -1⟩ →
      g.food.position ∉ g.snake.body ∨
      (g.state = GameState.GameOver ∧ g.snake.getHead = g.food.position ∧
        ∀ c, g.InBoard c → c ∈ g.snake.body) := by
  induction hr with
  | init => intro hp; exact absurd rfl hp
  | step c hprev hstep ih => exact GameLogic.step_food _ _ _ c hstep hprev.frame.2.2.2 ih

theorem Reachable.head {w h : Int} {gen : RandomGenerator} {g : GameLogic}
    (hw : 1 ≤ w) (hh : 1 ≤ h) (hr : Reachable w h gen g) :
    g.state = GameState.Running ∨ g.state = GameState.Paused →
      g.InBoard g.snake.getHead := by
  induction hr with
  | init => intro hs; rcases hs with hs | hs <;> cases hs
  | step c hprev hstep ih =>
    exact GameLogic.step_head _ _ _ c hstep (by rw [hprev.frame.1]; exact hw)
      (by rw [hprev.frame.2.1]; exact hh) ih

set_option maxRecDepth 100000 in
theorem scenarioA_reachable : Reachable 20 15 firstCandidate scenarioA := by
  have h : ((GameLogic.new 20 15 firstCandidate).step Command.startGame).map Prod.fst =
      some scenarioA := by rfl
  cases hs : (GameLogic.new 20 15 firstCandidate).step Command.startGame with
  | none => rw [hs] at h; cases h
  | some r =>
    obtain ⟨g, ev⟩ := r
    rw [hs] at h
    simp only [Option.map_some', Option.some.injEq] at h
    subst h
    exact Reachable.step Command.startGame Reachable.init hs

set_option maxRecDepth 100000 in
theorem scenarioFull_reachable : Reachable 4 1 firstCandidate scenarioFull := by
  have h : ((GameLogic.new 4 1 firstCandidate).step Command.startGame).map Prod.fst =
      some scenarioFull := by rfl
  cases hs : (GameLogic.new 4 1 firstCandidate).step Command.startGame with
  | none => rw [hs] at h; cases h
  | some r =>
    obtain ⟨g, ev⟩ := r
    rw [hs] at h
    simp only [Option.map_some', Option.some.injEq] at h
    subst h
    exact Reachable.step Command.startGame Reachable.init hs

theorem scenarioFull_tick :
    scenarioFull.onGameTick = some (scenarioFullOver,
      [Event.scoreChanged 10, Event.gameStateChanged GameState.GameOver, Event.gameOver 10,
       Event.snakeMoved [⟨3, 0⟩, ⟨2, 0⟩, ⟨1, 0⟩, ⟨0, 0⟩]]) := by
  rfl

theorem scenarioFullOver_reachable : Reachable 4 1 firstCandidate scenarioFullOver :=
  Reachable.step Command.tick scenarioFull_reachable scenarioFull_tick

theorem Snake.setDirection_eq (s : Snake) (d : Direction) :
    s.setDirection d =
      if d = s.currentDirection.opposite then (false, s)
      else (true, { s with currentDirection := d }) := by
  obtain ⟨body, c⟩ := s
  cases c <;> cases d <;> rfl

namespace GameLogic

/-- A tick returns as soon as the `spawnFood` of its growth branch returns. -/
theorem onGameTick_isSome_of (g : GameLogic)
    (hsp : g.state = GameState.Running → g.InBoard g.nextHead →
      g.nextHead = g.food.position →
      ∃ r, ({ g with snake := g.snake.grow,
                     score := g.score + Constants.kScorePerFood } : GameLogic).spawnFood
        = some r) :
    ∃ g1 ev, g.onGameTick = some (g1, ev) := by
  by_cases hrun : g.state = GameState.Running
  swap
  · exact ⟨_, _, onGameTick_not_running g hrun⟩
  by_cases hin : g.InBoard g.nextHead
  swap
  · exact ⟨_, _, onGameTick_wall_eq g hrun hin⟩
  by_cases hfood : g.nextHead = g.food.position
  swap
  · rw [onGameTick_move_eq g hrun hin hfood]
    split
    · exact ⟨_, _, rfl⟩
    · exact ⟨_, _, rfl⟩
  · obtain ⟨r, hr⟩ := hsp hrun hin hfood
    rw [onGameTick_eat_eq g hrun hin hfood, hr]
    simp only
    split
    · exact ⟨_, _, rfl⟩
    · exact ⟨_, _, rfl⟩

theorem onGameTick_isSome (g : GameLogic) (hgen : g.food.randomGenerator.InRange) :
    ∃ g1 ev, g.onGameTick = some (g1, ev) := by
  apply onGameTick_isSome_of
  intro _ _ _
  obtain ⟨g3, ev3, h3⟩ := spawnFood_isSome
    ({ g with snake := g.snake.grow,
              score := g.score + Constants.kScorePerFood } : GameLogic) hgen
  exact ⟨_, h3⟩

end GameLogic

/-! ## What the reachable states keep of the snake body -/

namespace GameLogic

/-- What one step does to the snake body and the score: nothing (and then it
neither leaves GameOver nor enters Running or Paused from outside them), a
reset, a move, or a growth.  After a move or a growth the state is other than
GameOver only if the new head is off the rest of the new body. -/
theorem step_body (g g1 : GameLogic) (ev : List Event) (c : Command)
    (h : g.step c = some (g1, ev)) :
    (g1.snake.body = g.snake.body ∧ g1.score = g.score ∧
      (g1.state ≠ GameState.GameOver → g.state ≠ GameState.GameOver) ∧
      (g1.state = GameState.Running ∨ g1.state = GameState.Paused →
        g.state = GameState.Running ∨ g.state = GameState.Paused)) ∨
    (g1.snake.body = [⟨Int.tdiv g.boardWidth 2, Int.tdiv g.boardHeight 2⟩,
                      ⟨Int.tdiv g.boardWidth 2 - 1, Int.tdiv g.boardHeight 2⟩,
                      ⟨Int.tdiv g.boardWidth 2 - 2, Int.tdiv g.boardHeight 2⟩] ∧
      g1.score = 0) ∨
    (g.state = GameState.Running ∧ g.InBoard g.nextHead ∧ g.snake.body ≠ [] ∧
      g1.snake.body = g.nextHead :: g.snake.body.dropLast ∧ g1.score = g.score ∧
      (g1.state ≠ GameState.GameOver → g.nextHead ∉ g.snake.body.dropLast)) ∨
    (g.state = GameState.Running ∧ g.InBoard g.nextHead ∧ g.snake.body ≠ [] ∧
      g1.snake.body = g.nextHead :: g.snake.body ∧ g1.score = g.score + 10 ∧
      (g1.state ≠ GameState.GameOver → g.nextHead ∉ g.snake.body)) := by
  have hquiet : g1 = g → (g1.snake.body = g.snake.body ∧ g1.score = g.score ∧
      (g1.state ≠ GameState.GameOver → g.state ≠ GameState.GameOver) ∧
      (g1.state = GameState.Running ∨ g1.state = GameState.Paused →
        g.state = GameState.Running ∨ g.state = GameState.Paused)) := by
    intro hg
    subst hg
    exact ⟨rfl, rfl, id, id⟩
  cases c with
  | startGame =>
    rcases startGame_inv g g1 ev h with ⟨-, hg, -⟩ | ⟨-, g0, ev0, h0, rfl, -⟩
    · exact Or.inl (hquiet hg)
    · obtain ⟨hsc, -, -, hsn, -⟩ := resetGame_fields g g0 ev0 h0
      refine Or.inr (Or.inl ⟨?_, hsc⟩)
      show g0.snake.body = _
      rw [hsn]
  | pauseGame =>
    simp only [step, Option.some.injEq] at h
    by_cases hr : g.state = GameState.Running
    · rw [pauseGame_of_running g hr] at h
      simp only [Prod.mk.injEq] at h
      rw [← h.1]
      refine Or.inl ⟨rfl, rfl, fun _ => by rw [hr]; decide, fun _ => Or.inl hr⟩
    · rw [pauseGame_of_not_running g hr] at h
      simp only [Prod.mk.injEq] at h
      exact Or.inl (hquiet h.1.symm)
  | resumeGame =>
    simp only [step, Option.some.injEq] at h
    by_cases hr : g.state = GameState.Paused
    · rw [resumeGame_of_paused g hr] at h
      simp only [Prod.mk.injEq] at h
      rw [← h.1]
      refine Or.inl ⟨rfl, rfl, fun _ => by rw [hr]; decide, fun _ => Or.inr hr⟩
    · rw [resumeGame_of_not_paused g hr] at h
      simp only [Prod.mk.injEq] at h
      exact Or.inl (hquiet h.1.symm)
  | resetGame =>
    obtain ⟨hsc, -, -, hsn, -⟩ := resetGame_fields g g1 ev h
    refine Or.inr (Or.inl ⟨?_, hsc⟩)
    rw [hsn]
  | setDirection d =>
    simp only [step, Option.some.injEq] at h
    by_cases hr : g.state = GameState.Running
    · rw [setDirection_of_running g d hr] at h
      simp only [Prod.mk.injEq] at h
      rw [← h.1]
      exact Or.inl ⟨snake_setDirection_body g.snake d, rfl, id, id⟩
    · rw [setDirection_of_not_running g d hr] at h
      simp only [Prod.mk.injEq] at h
      exact Or.inl (hquiet h.1.symm)
  | tick =>
    rcases onGameTick_inv g g1 ev h with ⟨-, hg, -⟩ | ⟨hrun, -, rfl, -⟩ |
      ⟨hrun, hin, -, hs, -, hsc, hc⟩ | ⟨hrun, hin, -, hs, hsc, hc⟩
    · exact Or.inl (hquiet hg)
    · refine Or.inl ⟨rfl, rfl, fun hh => absurd rfl hh, fun hh => ?_⟩
      rcases hh with hh | hh <;> cases hh
    · refine Or.inr (Or.inr (Or.inl ⟨hrun, hin, body_ne_nil_of_inBoard_nextHead g hin,
        by rw [hs], hsc, ?_⟩))
      intro hne
      rcases hc with ⟨hnot, -⟩ | ⟨-, hst, -⟩
      · exact hnot
      · exact absurd hst hne
    · refine Or.inr (Or.inr (Or.inr ⟨hrun, hin, body_ne_nil_of_inBoard_nextHead g hin,
        by rw [hs], hsc, ?_⟩))
      intro hne
      rcases hc with ⟨-, -, hst, -⟩ | ⟨-, ⟨hnot, -⟩ | ⟨-, hst, -⟩⟩
      · exact absurd hst hne
      · exact hnot
      · exact absurd hst hne

theorem reset_body_length (a b : Int) :
    ([⟨a, b⟩, ⟨a - 1, b⟩, ⟨a - 2, b⟩] : List QPoint).length = 3 := rfl

theorem reset_body_nodup (a b : Int) :
    ([⟨a, b⟩, ⟨a - 1, b⟩, ⟨a - 2, b⟩] : List QPoint).Nodup := by
  simp only [List.nodup_cons, List.mem_cons, QPoint.mk.injEq, List.mem_singleton,
    List.not_mem_nil, not_false_eq_true, List.nodup_nil, and_true, or_false]
  constructor <;> omega

theorem length_move_body (p : QPoint) (l : List QPoint) (h : l ≠ []) :
    (p :: l.dropLast).length = l.length := by
  have := List.length_pos.2 h
  simp only [List.length_cons, List.length_dropLast]
  omega

theorem step_length (g g1 : GameLogic) (ev : List Event) (c : Command)
    (h : g.step c = some (g1, ev)) (hinv : 3 ≤ g.snake.body.length) :
    3 ≤ g1.snake.body.length := by
  rcases step_body g g1 ev c h with ⟨hb, -⟩ | ⟨hb, -⟩ | ⟨-, -, hne, hb, -⟩ | ⟨-, -, -, hb, -⟩
  · rw [hb]; exact hinv
  · rw [hb]; exact le_refl _
  · rw [hb, length_move_body _ _ hne]; exact hinv
  · rw [hb, List.length_cons]; omega

theorem step_score_length (g g1 : GameLogic) (ev : List Event) (c : Command)
    (h : g.step c = some (g1, ev))
    (hinv : g.score = 10 * ((g.snake.body.length : Int) - 3)) :
    g1.score = 10 * ((g1.snake.body.length : Int) - 3) := by
  rcases step_body g g1 ev c h with ⟨hb, hs, -⟩ | ⟨hb, hs⟩ | ⟨-, -, hne, hb, hs, -⟩ |
    ⟨-, -, -, hb, hs, -⟩
  · rw [hb, hs]; exact hinv
  · rw [hb, hs]; rfl
  · rw [hb, hs, length_move_body _ _ hne]; exact hinv
  · rw [hb, hs, List.length_cons, hinv]; push_cast; ring

theorem step_nodup (g g1 : GameLogic) (ev : List Event) (c : Command)
    (h : g.step c = some (g1, ev))
    (hinv : g.state ≠ GameState.GameOver → g.snake.body.Nodup) :
    g1.state ≠ GameState.GameOver → g1.snake.body.Nodup := by
  intro hst
  rcases step_body g g1 ev c h with ⟨hb, -, hgo, -⟩ | ⟨hb, -⟩ | ⟨hrun, -, -, hb, -, hc⟩ |
    ⟨hrun, -, -, hb, -, hc⟩
  · rw [hb]; exact hinv (hgo hst)
  · rw [hb]; exact reset_body_nodup _ _
  · rw [hb]
    have hnd := hinv (by rw [hrun]; decide)
    exact List.nodup_cons.2 ⟨hc hst, hnd.sublist (List.dropLast_sublist _)⟩
  · rw [hb]
    have hnd := hinv (by rw [hrun]; decide)
    exact List.nodup_cons.2 ⟨hc hst, hnd⟩

theorem reset_body_inBoard (g : GameLogic) (hw : 4 ≤ g.boardWidth) (hh : 1 ≤ g.boardHeight) :
    ∀ c ∈ ([⟨Int.tdiv g.boardWidth 2, Int.tdiv g.boardHeight 2⟩,
            ⟨Int.tdiv g.boardWidth 2 - 1, Int.tdiv g.boardHeight 2⟩,
            ⟨Int.tdiv g.boardWidth 2 - 2, Int.tdiv g.boardHeight 2⟩] : List QPoint),
      g.InBoard c := by
  intro c hc
  simp only [List.mem_cons, List.mem_singleton, List.not_mem_nil, or_false] at hc
  unfold InBoard
  rw [Int.tdiv_eq_ediv (by omega) (by omega), Int.tdiv_eq_ediv (by omega) (by omega)] at hc
  rcases hc with rfl | rfl | rfl <;> simp only <;> omega

/-- One step keeps every body cell inside the board while the game is Running
or Paused, on a board at least 4 wide and 1 high. -/
theorem step_body_inBoard (g g1 : GameLogic) (ev : List Event) (c : Command)
    (h : g.step c = some (g1, ev)) (hw : 4 ≤ g.boardWidth) (hh : 1 ≤ g.boardHeight)
    (hinv : g.state = GameState.Running ∨ g.state = GameState.Paused →
      ∀ p ∈ g.snake.body, g.InBoard p) :
    g1.state = GameState.Running ∨ g1.state = GameState.Paused →
      ∀ p ∈ g1.snake.body, g1.InBoard p := by
  have hframe := step_sameFrame g g1 ev c h
  have hsame : ∀ p, g.InBoard p → g1.InBoard p := by
    intro p hp
    unfold InBoard at hp ⊢
    rw [hframe.1, hframe.2.1]
    exact hp
  intro hst p hp
  apply hsame
  rcases step_body g g1 ev c h with ⟨hb, -, -, hrp⟩ | ⟨hb, -⟩ | ⟨hrun, hin, -, hb, -⟩ |
    ⟨hrun, hin, -, hb, -⟩
  · rw [hb] at hp
    exact hinv (hrp hst) p hp
  · rw [hb] at hp
    exact reset_body_inBoard g hw hh p hp
  · rw [hb] at hp
    rcases List.mem_cons.1 hp with rfl | hp
    · exact hin
    · exact hinv (Or.inl hrun) p (List.mem_of_mem_dropLast hp)
  · rw [hb] at hp
    rcases List.mem_cons.1 hp with rfl | hp
    · exact hin
    · exact hinv (Or.inl hrun) p hp

end GameLogic

theorem Reachable.body_length {w h : Int} {gen : RandomGenerator} {g : GameLogic}
    (hr : Reachable w h gen g) : 3 ≤ g.snake.body.length := by
  induction hr with
  | init => exact le_refl _
  | step c _ hstep ih => exact GameLogic.step_length _ _ _ c hstep ih

theorem Reachable.score_length {w h : Int} {gen : RandomGenerator} {g : GameLogic}
    (hr : Reachable w h gen g) : g.score = 10 * ((g.snake.body.length : Int) - 3) := by
  induction hr with
  | init => rfl
  | step c _ hstep ih => exact GameLogic.step_score_length _ _ _ c hstep ih

theorem Reachable.body_nodup {w h : Int} {gen : RandomGenerator} {g : GameLogic}
    (hr : Reachable w h gen g) : g.state ≠ GameState.GameOver → g.snake.body.Nodup := by
  induction hr with
  | init =>
    intro _
    have hb : (GameLogic.new w h gen).snake.body = [⟨10, 7⟩, ⟨9, 7⟩, ⟨8, 7⟩] := rfl
    rw [hb]
    decide
  | step c _ hstep ih => exact GameLogic.step_nodup _ _ _ c hstep ih

theorem Reachable.body_inBoard {w h : Int} {gen : RandomGenerator} {g : GameLogic}
    (hw : 4 ≤ w) (hh : 1 ≤ h) (hr : Reachable w h gen g) :
    g.state = GameState.Running ∨ g.state = GameState.Paused →
      ∀ p ∈ g.snake.body, g.InBoard p := by
  induction hr with
  | init => intro hs; rcases hs with hs | hs <;> cases hs
  | step c hprev hstep ih =>
    exact GameLogic.step_body_inBoard _ _ _ c hstep (by rw [hprev.frame.1]; exact hw)
      (by rw [hprev.frame.2.1]; exact hh) ih

set_option maxRecDepth 100000 in
theorem scenarioNarrow_reachable : Reachable 3 3 firstCandidate scenarioNarrow := by
  have h : ((GameLogic.new 3 3 firstCandidate).step Command.startGame).map Prod.fst =
      some scenarioNarrow := by rfl
  cases hs : (GameLogic.new 3 3 firstCandidate).step Command.startGame with
  | none => rw [hs] at h; cases h
  | some r =>
    obtain ⟨g, ev⟩ := r
    rw [hs] at h
    simp only [Option.map_some', Option.some.injEq] at h
    subst h
    exact Reachable.step Command.startGame Reachable.init hs

theorem not_mem_dropLast_of_last {α : Type} (l : List α) (a : α) (hnd : l.Nodup)
    (hlast : l.getLast? = some a) : a ∉ l.dropLast := by
  have hl : l.dropLast ++ [a] = l := List.dropLast_append_getLast? a hlast
  rw [← hl] at hnd
  have hdis := (List.nodup_append.1 hnd).2.2
  intro hmem
  exact hdis hmem (List.mem_singleton.2 rfl)

theorem mem_of_last {α : Type} (l : List α) (a : α) (hlast : l.getLast? = some a) :
    a ∈ l := by
  have hl : l.dropLast ++ [a] = l := List.dropLast_append_getLast? a hlast
  rw [← hl]
  simp

theorem Snake.getHead_ne_nil (s : Snake) (h : s.body ≠ []) :
    s.body.head? = some s.getHead := by
  unfold Snake.getHead
  cases hb : s.body with
  | nil => exact absurd hb h
  | cons a l => rfl

theorem Snake.reset_cell (s : Snake) (start : QPoint) (n : Int) (d : Direction)
    (i : Nat) (hi : i < n.toNat) :
    (s.reset start n d).body[i]? =
      some ⟨start.x - (i : Int) * (DirectionHelper.toOffset d).x,
            start.y - (i : Int) * (DirectionHelper.toOffset d).y⟩ := by
  simp only [Snake.reset, List.getElem?_map, List.getElem?_range hi, Option.map_some',
    QPoint.add_def, QPoint.mul_def, Int.ofNat_eq_coe, Option.some.injEq, QPoint.mk.injEq]
  constructor <;> ring

/-! ## Contiguity of the body and range of the food position -/

theorem manhattan_add_offset (p : QPoint) (d : Direction) :
    QPoint.manhattan (p + DirectionHelper.toOffset d) p = 1 := by
  obtain ⟨x, y⟩ := p
  cases d <;> simp [QPoint.manhattan, QPoint.add_def, DirectionHelper.toOffset]

theorem Snake.reset_contiguous (s : Snake) (start : QPoint) (n : Int) (d : Direction) :
    Contiguous (s.reset start n d).body := by
  unfold Contiguous
  simp only [Snake.reset]
  rw [List.chain'_map]
  cases hn : n.toNat with
  | zero => exact List.chain'_nil
  | succ k =>
    rw [List.chain'_range_succ]
    intro m _
    obtain ⟨x, y⟩ := start
    cases d <;>
      simp [QPoint.manhattan, QPoint.add_def, QPoint.mul_def, DirectionHelper.toOffset]

theorem contiguous_cons_of_head (p : QPoint) (d : Direction) (l : List QPoint)
    (hl : Contiguous l) (hp : ∀ q ∈ l.head?, p = q + DirectionHelper.toOffset d) :
    Contiguous (p :: l) := by
  unfold Contiguous at hl ⊢
  apply hl.cons'
  intro q hq
  rw [hp q hq]
  exact manhattan_add_offset q d

theorem Snake.move_contiguous (s : Snake) (h : Contiguous s.body) :
    Contiguous s.move.body := by
  by_cases hne : s.body = []
  · have : s.move = s := by simp [Snake.move, hne]
    rw [this]; exact h
  · rw [Snake.move_body s hne]
    apply contiguous_cons_of_head _ s.currentDirection
    · exact List.Chain'.prefix h (List.dropLast_prefix _)
    · intro q hq
      rw [List.head?_dropLast] at hq
      split at hq
      · unfold Snake.calculateNextHead Snake.getHead
        cases hb : s.body with
        | nil => exact absurd hb hne
        | cons a l =>
          rw [hb] at hq
          simp only [List.head?_cons, Option.mem_def, Option.some.injEq] at hq
          rw [hq]
      · cases hq

theorem Snake.grow_contiguous (s : Snake) (h : Contiguous s.body) :
    Contiguous s.grow.body := by
  by_cases hne : s.body = []
  · have : s.grow = s := by simp [Snake.grow, hne]
    rw [this]; exact h
  · rw [Snake.grow_body s hne]
    apply contiguous_cons_of_head _ s.currentDirection _ h
    intro q hq
    unfold Snake.calculateNextHead Snake.getHead
    cases hb : s.body with
    | nil => exact absurd hb hne
    | cons a l =>
      rw [hb] at hq
      simp only [List.head?_cons, Option.mem_def, Option.some.injEq] at hq
      rw [hq]

theorem GameLogic.step_contiguous (g g1 : GameLogic) (ev : List Event) (c : Command)
    (h : g.step c = some (g1, ev)) (hinv : Contiguous g.snake.body) :
    Contiguous g1.snake.body := by
  rcases GameLogic.step_body g g1 ev c h with ⟨hb, -⟩ | ⟨hb, -⟩ | ⟨-, -, hne, hb, -⟩ |
    ⟨-, -, hne, hb, -⟩
  · rw [hb]; exact hinv
  · rw [hb]
    have := Snake.reset_contiguous g.snake
      ⟨Int.tdiv g.boardWidth 2, Int.tdiv g.boardHeight 2⟩ Constants.kInitialSnakeLength
      Direction.Right
    rw [Snake.reset_three] at this
    exact this
  · have hm := Snake.move_contiguous g.snake hinv
    rw [Snake.move_body g.snake hne] at hm
    rw [hb]; exact hm
  · have hm := Snake.grow_contiguous g.snake hinv
    rw [Snake.grow_body g.snake hne] at hm
    rw [hb]; exact hm

theorem Reachable.contiguous {w h : Int} {gen : RandomGenerator} {g : GameLogic}
    (hr : Reachable w h gen g) : Contiguous g.snake.body := by
  induction hr with
  | init => exact Snake.reset_contiguous ⟨[], Direction.Right⟩ ⟨10, 7⟩ 3 Direction.Right
  | step c _ hstep ih => exact GameLogic.step_contiguous _ _ _ c hstep ih

namespace GameLogic

theorem inBoard_ne_sentinel (g : GameLogic) (p : QPoint) (h : g.InBoard p) :
    p ≠ ⟨-1, -1⟩ := by
  intro hp
  rw [hp] at h
  exact absurd h.1 (by decide)

/-- One step keeps the food unplaced or inside the board. -/
theorem step_food_range (g g1 : GameLogic) (ev : List Event) (c : Command)
    (h : g.step c = some (g1, ev)) (hwf : g.WellFormed)
    (hinv : g.food.position = ⟨-1, -1⟩ ∨ g.InBoard g.food.position) :
    g1.food.position = ⟨-1, -1⟩ ∨ g1.InBoard g1.food.position := by
  have hframe := step_sameFrame g g1 ev c h
  have hsame : ∀ p, g.InBoard p → g1.InBoard p := by
    intro p hp
    unfold InBoard at hp ⊢
    rw [hframe.1, hframe.2.1]
    exact hp
  have hkeep : g1.food = g.food →
      (g1.food.position = ⟨-1, -1⟩ ∨ g1.InBoard g1.food.position) := by
    intro hf
    rw [hf]
    exact hinv.imp id (hsame _)
  have hreset : ∀ g0 ev0, g.resetGame = some (g0, ev0) →
      (g0.food.position = ⟨-1, -1⟩ ∨ g0.InBoard g0.food.position) := by
    intro g0 ev0 h0
    obtain ⟨-, -, -, -, -, -, -, -, -, hfree, hfull, -⟩ := resetGame_fields g g0 ev0 h0
    by_cases hex : ∃ c, g0.InBoard c ∧ c ∉ g0.snake.body
    · exact Or.inr (hfree hex).1
    · left
      apply hfull
      intro c hc
      by_contra hcb
      exact hex ⟨c, hc, hcb⟩
  cases c with
  | startGame =>
    rcases startGame_inv g g1 ev h with ⟨-, hg, -⟩ | ⟨-, g0, ev0, h0, rfl, -⟩
    · exact hkeep (by rw [hg])
    · exact hreset g0 ev0 h0
  | pauseGame =>
    simp only [step, Option.some.injEq] at h
    by_cases hr : g.state = GameState.Running
    · rw [pauseGame_of_running g hr] at h
      simp only [Prod.mk.injEq] at h
      exact hkeep (by rw [← h.1])
    · rw [pauseGame_of_not_running g hr] at h
      simp only [Prod.mk.injEq] at h
      exact hkeep (by rw [← h.1])
  | resumeGame =>
    simp only [step, Option.some.injEq] at h
    by_cases hr : g.state = GameState.Paused
    · rw [resumeGame_of_paused g hr] at h
      simp only [Prod.mk.injEq] at h
      exact hkeep (by rw [← h.1])
    · rw [resumeGame_of_not_paused g hr] at h
      simp only [Prod.mk.injEq] at h
      exact hkeep (by rw [← h.1])
  | resetGame => exact hreset g1 ev h
  | setDirection d =>
    simp only [step, Option.some.injEq] at h
    by_cases hr : g.state = GameState.Running
    · rw [setDirection_of_running g d hr] at h
      simp only [Prod.mk.injEq] at h
      exact hkeep (by rw [← h.1])
    · rw [setDirection_of_not_running g d hr] at h
      simp only [Prod.mk.injEq] at h
      exact hkeep (by rw [← h.1])
  | tick =>
    rcases onGameTick_inv g g1 ev h with ⟨-, hg, -⟩ | ⟨-, -, hg, -⟩ |
      ⟨-, -, -, -, hf, -⟩ | ⟨-, -, -, -, -, hc⟩
    · exact hkeep (by rw [hg])
    · exact hkeep (by rw [hg])
    · exact hkeep hf
    · rcases hc with ⟨-, hf, -⟩ | ⟨hmem, -⟩
      · exact hkeep hf
      · right
        apply hsame
        obtain ⟨⟨h1, h2, h3, h4⟩, -⟩ := (Food.mem_getAvailablePositions _ _ _).1 hmem
        exact ⟨h1, by rw [← hwf.1]; exact h2, h3, by rw [← hwf.2]; exact h4⟩

/-- A cell next to a board cell is never the sentinel (-1,-1). -/
theorem nextHead_ne_sentinel (g : GameLogic) (h : g.InBoard g.snake.getHead) :
    g.nextHead ≠ ⟨-1, -1⟩ := by
  unfold nextHead
  unfold InBoard at h
  generalize g.snake.getHead = p at h ⊢
  obtain ⟨x, y⟩ := p
  simp only at h
  cases g.snake.getDirection <;>
    simp only [DirectionHelper.toOffset, QPoint.add_def, ne_eq, QPoint.mk.injEq, not_and] <;>
    omega

end GameLogic

theorem Reachable.food_range {w h : Int} {gen : RandomGenerator} {g : GameLogic}
    (hr : Reachable w h gen g) :
    g.food.position = ⟨-1, -1⟩ ∨ g.InBoard g.food.position := by
  induction hr with
  | init => exact Or.inl rfl
  | step c hprev hstep ih =>
    exact GameLogic.step_food_range _ _ _ c hstep hprev.frame.2.2.2 ih

/-! ## The claims -/

namespace GameLogic

/-- C1: in a running game with a non-empty body, when the candidate head is
inside the board, is not the food and is none of the body cells before the
tail, one tick returns; the new body is the candidate head followed by the old
body without its last cell; state stays Running; score, food position and
heading are unchanged; the one event is `snakeMoved` with the new body. -/
theorem onGameTick_plain_move (g : GameLogic)
    (hrun : g.state = GameState.Running)
    (hne : g.snake.body ≠ [])
    (hin : g.InBoard g.nextHead)
    (hfood : g.nextHead ≠ g.food.position)
    (hself : g.nextHead ∉ g.snake.body.dropLast) :
    ∃ g1 ev, g.onGameTick = some (g1, ev) ∧
      g1.snake.body = g.nextHead :: g.snake.body.dropLast ∧
      g1.state = GameState.Running ∧ g1.score = g.score ∧
      g1.food.position = g.food.position ∧
      g1.snake.currentDirection = g.snake.currentDirection ∧
      ev = [Event.snakeMoved (g.nextHead :: g.snake.body.dropLast)] := by
  have hbody : g.snake.move.body = g.nextHead :: g.snake.body.dropLast :=
    Snake.move_body g.snake hne
  have hc : g.snake.move.getHead ∉ g.snake.move.body.tail := by
    simpa [Snake.getHead, hbody] using hself
  refine ⟨{ g with snake := g.snake.move }, [Event.snakeMoved g.snake.move.body], ?_, hbody,
    hrun, rfl, rfl, Snake.move_currentDirection _, by rw [hbody]⟩
  rw [onGameTick_move_eq g hrun hin hfood, if_neg hc]

/-- Scenario A of the specification, through the theorem of C1: on the 20 x 15
board the body [(10,7),(9,7),(8,7)] heading Right becomes [(11,7),(10,7),(9,7)]. -/
theorem onGameTick_plain_move_witness :
    ∃ g1 ev, scenarioA.onGameTick = some (g1, ev) ∧
      g1.snake.body = [⟨11, 7⟩, ⟨10, 7⟩, ⟨9, 7⟩] ∧
      g1.state = GameState.Running ∧ g1.score = 0 ∧
      g1.food.position = ⟨0, 0⟩ ∧
      g1.snake.currentDirection = Direction.Right ∧
      ev = [Event.snakeMoved [⟨11, 7⟩, ⟨10, 7⟩, ⟨9, 7⟩]] :=
  onGameTick_plain_move scenarioA (by decide) (by decide) (by decide) (by decide) (by decide)

/-- C2: in a running, well-formed game with an in-range generator, when the
candidate head is inside the board, is the food cell and is no body cell, and
some board cell is free after the growth, one tick returns; the new body is
the old food cell followed by the whole old body (length + 1), the score is
10 higher, the food is on a board cell outside the new body, state stays
Running; the events are `scoreChanged`, `foodSpawned`, `snakeMoved`. -/
theorem onGameTick_eat (g : GameLogic)
    (hrun : g.state = GameState.Running)
    (hwf : g.WellFormed)
    (hgen : g.food.randomGenerator.InRange)
    (hin : g.InBoard g.nextHead)
    (hfood : g.nextHead = g.food.position)
    (hbody : g.nextHead ∉ g.snake.body)
    (hfree : ∃ c, g.InBoard c ∧ c ∉ g.nextHead :: g.snake.body) :
    ∃ g1 ev, g.onGameTick = some (g1, ev) ∧
      g1.snake.body = g.food.position :: g.snake.body ∧
      g1.snake.body.length = g.snake.body.length + 1 ∧
      g1.score = g.score + 10 ∧
      g1.InBoard g1.food.position ∧ g1.food.position ∉ g1.snake.body ∧
      g1.state = GameState.Running ∧
      ev = [Event.scoreChanged (g.score + 10), Event.foodSpawned g1.food.position,
            Event.snakeMoved g1.snake.body] := by
  have hne : g.snake.body ≠ [] := body_ne_nil_of_inBoard_nextHead g hin
  have hwall : g.checkWallCollision g.nextHead = false :=
    (checkWallCollision_eq_false_iff g _).2 hin
  have hf : g.checkFoodCollision g.nextHead = true :=
    (checkFoodCollision_eq_true_iff g _).2 hfood
  have hgrow : g.snake.grow.body = g.nextHead :: g.snake.body := Snake.grow_body g.snake hne
  obtain ⟨c, hc, hcb⟩ := hfree
  have hinb : ∀ p, g.food.InBoard p ↔ g.InBoard p := by
    intro p; unfold Food.InBoard InBoard; rw [hwf.1, hwf.2]
  have havail : g.food.getAvailablePositions g.snake.grow.body ≠ [] := by
    intro h
    have := (Food.getAvailablePositions_eq_nil_iff _ _).1 h c ((hinb c).2 hc)
    rw [hgrow] at this
    exact hcb this
  obtain ⟨p, ⟨hpin, hpb⟩, hsp⟩ := spawnFood_of_inRange
    { g with snake := g.snake.grow, score := g.score + Constants.kScorePerFood } hgen havail
  refine ⟨{ snake := g.snake.grow
            food := { g.food with position := p, rngCalls := g.food.rngCalls + 1 }
            timerActive := g.timerActive
            state := g.state
            score := g.score + Constants.kScorePerFood
            boardWidth := g.boardWidth
            boardHeight := g.boardHeight },
    _, ?_, ?_, ?_, rfl, (hinb p).1 hpin, hpb, hrun, rfl⟩
  · have hns : g.snake.grow.getHead ∉ g.snake.grow.body.tail := by
      simpa [Snake.getHead, hgrow] using hbody
    unfold onGameTick
    rw [if_neg (not_not.2 hrun)]
    simp only [nextHead_eq, hwall, hf, Bool.false_eq_true, if_false, if_true, hsp,
      checkSelfCollision_eq_true_iff, hns]
    simp [Snake.getBody, Food.getPosition, Constants.kScorePerFood]
  · show g.snake.grow.body = _
    rw [hgrow, hfood]
  · show g.snake.grow.body.length = _
    rw [hgrow]; rfl

/-- Scenario B of the specification, through the theorem of C2: length 3 to 4,
score 0 to 10; with the first-candidate stub the food goes to (0,0). -/
theorem onGameTick_eat_witness :
    ∃ g1 ev, scenarioB.onGameTick = some (g1, ev) ∧
      g1.snake.body = [⟨11, 7⟩, ⟨10, 7⟩, ⟨9, 7⟩, ⟨8, 7⟩] ∧
      g1.snake.body.length = 3 + 1 ∧
      g1.score = 0 + 10 ∧
      g1.InBoard g1.food.position ∧ g1.food.position ∉ g1.snake.body ∧
      g1.state = GameState.Running ∧
      ev = [Event.scoreChanged (0 + 10), Event.foodSpawned g1.food.position,
            Event.snakeMoved g1.snake.body] :=
  onGameTick_eat scenarioB (by decide) (by decide) firstCandidate_inRange (by decide)
    (by decide) (by decide) ⟨⟨0, 0⟩, by decide, by decide⟩

/-- C3: in a running game whose candidate head is outside the board, one tick
returns with state GameOver; it publishes the state change and then `gameOver`
with the current score, and nothing else; score, body, heading and food
position are unchanged. -/
theorem onGameTick_wall_collision (g : GameLogic)
    (hrun : g.state = GameState.Running)
    (hout : g.nextHead.x < 0 ∨ g.nextHead.x ≥ g.boardWidth ∨
      g.nextHead.y < 0 ∨ g.nextHead.y ≥ g.boardHeight) :
    ∃ g1 ev, g.onGameTick = some (g1, ev) ∧
      g1.state = GameState.GameOver ∧
      ev = [Event.gameStateChanged GameState.GameOver, Event.gameOver g.score] ∧
      g1.score = g.score ∧ g1.snake.body = g.snake.body ∧
      g1.snake.currentDirection = g.snake.currentDirection ∧
      g1.food.position = g.food.position := by
  have hwall : g.checkWallCollision g.nextHead = true :=
    (checkWallCollision_eq_true_iff g _).2 hout
  refine ⟨{ g with timerActive := false, state := GameState.GameOver }, _, ?_,
    rfl, rfl, rfl, rfl, rfl, rfl⟩
  simp only [onGameTick, hrun, nextHead_eq, hwall]
  simp [handleGameOver_of_running g hrun]

/-- Scenario C of the specification, through the theorem of C3: the head on
column 19 of the 20 x 15 board, heading Right. -/
theorem onGameTick_wall_collision_witness :
    ∃ g1 ev, scenarioC.onGameTick = some (g1, ev) ∧
      g1.state = GameState.GameOver ∧
      ev = [Event.gameStateChanged GameState.GameOver, Event.gameOver 0] ∧
      g1.score = 0 ∧ g1.snake.body = [⟨19, 7⟩, ⟨18, 7⟩, ⟨17, 7⟩] ∧
      g1.snake.currentDirection = Direction.Right ∧
      g1.food.position = ⟨0, 0⟩ :=
  onGameTick_wall_collision scenarioC (by decide) (by decide)

/-- C4: in a running game, when the candidate head is inside the board, is not
the food and equals the body cell of some index i with 1 ≤ i ≤ length - 2, one
tick returns with state GameOver, publishes the state change and then
`gameOver` with the score, which is unchanged. -/
theorem onGameTick_self_collision (g : GameLogic)
    (hrun : g.state = GameState.Running)
    (hin : g.InBoard g.nextHead)
    (hfood : g.nextHead ≠ g.food.position)
    (i : Nat) (_hi1 : 1 ≤ i) (hi2 : i + 2 ≤ g.snake.body.length)
    (hhit : g.snake.body[i]? = some g.nextHead) :
    ∃ g1 ev, g.onGameTick = some (g1, ev) ∧
      g1.state = GameState.GameOver ∧
      ev = [Event.gameStateChanged GameState.GameOver, Event.gameOver g.score] ∧
      g1.score = g.score := by
  have hne : g.snake.body ≠ [] := by
    intro h; rw [h] at hi2; simp at hi2
  have hbody : g.snake.move.body = g.nextHead :: g.snake.body.dropLast :=
    Snake.move_body g.snake hne
  have hmem : g.nextHead ∈ g.snake.body.dropLast :=
    (mem_dropLast_iff_index _ _).2 ⟨i, by omega, hhit⟩
  have hc : g.snake.move.getHead ∈ g.snake.move.body.tail := by
    simpa [Snake.getHead, hbody] using hmem
  rw [onGameTick_move_eq g hrun hin hfood, if_pos hc]
  exact ⟨_, _, rfl, rfl, rfl, rfl⟩

/-- Scenario D of the specification, through the theorem of C4: the candidate
head (6,5) is the body cell of index 3 of a body of length 5. -/
theorem onGameTick_self_collision_witness :
    ∃ g1 ev, scenarioD.onGameTick = some (g1, ev) ∧
      g1.state = GameState.GameOver ∧
      ev = [Event.gameStateChanged GameState.GameOver, Event.gameOver 0] ∧
      g1.score = 0 :=
  onGameTick_self_collision scenarioD (by decide) (by decide) (by decide) 3 (by decide)
    (by decide) (by decide)

end GameLogic

/-- C5: `Snake.setDirection d` returns false and leaves the snake as it is when
`d` is the opposite of the current heading, and returns true with the heading
set to `d` otherwise; the rejection happens exactly for the opposite; the body
is never changed.  Scenario E: heading Up, Down is rejected and the heading
stays Up, after which Left is accepted. -/
theorem Snake.setDirection_spec :
    (∀ (s : Snake) (d : Direction),
      s.setDirection d =
        if d = s.currentDirection.opposite then (false, s)
        else (true, { s with currentDirection := d })) ∧
    (∀ (s : Snake) (d : Direction),
      ((s.setDirection d).1 = false ∧ (s.setDirection d).2.currentDirection = s.currentDirection)
        ↔ d = s.currentDirection.opposite) ∧
    (∀ (s : Snake) (d : Direction), d ≠ s.currentDirection.opposite →
      (s.setDirection d).1 = true ∧ (s.setDirection d).2.currentDirection = d) ∧
    (∀ (s : Snake) (d : Direction), (s.setDirection d).2.body = s.body) ∧
    (∀ body : List QPoint,
      (Snake.setDirection ⟨body, Direction.Up⟩ Direction.Down).1 = false ∧
      (Snake.setDirection ⟨body, Direction.Up⟩ Direction.Down).2.currentDirection
        = Direction.Up ∧
      (Snake.setDirection (Snake.setDirection ⟨body, Direction.Up⟩ Direction.Down).2
        Direction.Left).1 = true ∧
      (Snake.setDirection (Snake.setDirection ⟨body, Direction.Up⟩ Direction.Down).2
        Direction.Left).2.currentDirection = Direction.Left) := by
  have key : ∀ (s : Snake) (d : Direction),
      s.setDirection d =
        if d = s.currentDirection.opposite then (false, s)
        else (true, { s with currentDirection := d }) := by
    rintro ⟨body, c⟩ d
    cases c <;> cases d <;> rfl
  refine ⟨key, ?_, ?_, ?_, ?_⟩
  · intro s d
    rw [key]
    by_cases h : d = s.currentDirection.opposite <;> simp [h]
  · intro s d h
    rw [key]
    simp [h]
  · intro s d
    rw [key]
    split <;> rfl
  · intro body
    exact ⟨rfl, rfl, rfl, rfl⟩

/-- Scenario E of the specification, through the theorem of C5. -/
theorem Snake.setDirection_spec_witness :
    Snake.setDirection ⟨[⟨10, 7⟩, ⟨10, 8⟩, ⟨10, 9⟩], Direction.Up⟩ Direction.Down =
      (false, ⟨[⟨10, 7⟩, ⟨10, 8⟩, ⟨10, 9⟩], Direction.Up⟩) ∧
    Snake.setDirection ⟨[⟨10, 7⟩, ⟨10, 8⟩, ⟨10, 9⟩], Direction.Up⟩ Direction.Left =
      (true, ⟨[⟨10, 7⟩, ⟨10, 8⟩, ⟨10, 9⟩], Direction.Left⟩) :=
  ⟨Snake.setDirection_spec.1 ⟨[⟨10, 7⟩, ⟨10, 8⟩, ⟨10, 9⟩], Direction.Up⟩ Direction.Down,
   Snake.setDirection_spec.1 ⟨[⟨10, 7⟩, ⟨10, 8⟩, ⟨10, 9⟩], Direction.Up⟩ Direction.Left⟩

set_option maxRecDepth 100000 in
/-- C6, evaluated on the code, which fails the claim: on the default board,
after `startGame` the commands `setDirection Up`, `setDirection Left` are both
accepted before any tick.  The state reached is Running with body
[(10,7),(9,7),(8,7)] and heading Left, so the candidate head (9,7) is the neck
`body[1]`; the tick that follows moves the head onto it and ends the game. -/
theorem reversal_by_two_turns :
    ∃ g ev, (GameLogic.new 20 15 firstCandidate).run
        [Command.startGame, Command.setDirection Direction.Up,
         Command.setDirection Direction.Left] = some (g, ev) ∧
      Reachable 20 15 firstCandidate g ∧
      g.observe = { state := GameState.Running, score := 0,
                    body := [⟨10, 7⟩, ⟨9, 7⟩, ⟨8, 7⟩],
                    heading := Direction.Left, food := ⟨0, 0⟩ } ∧
      g.nextHead = ⟨9, 7⟩ ∧ g.snake.body[1]? = some ⟨9, 7⟩ ∧
      g.onGameTick.map (fun t => (t.1.observe, t.2)) =
        some ({ state := GameState.GameOver, score := 0,
                body := [⟨9, 7⟩, ⟨10, 7⟩, ⟨9, 7⟩],
                heading := Direction.Left, food := ⟨0, 0⟩ },
              [Event.gameStateChanged GameState.GameOver, Event.gameOver 0]) := by
  have hval : reversalRun =
      some ({ state := GameState.Running, score := 0, body := [⟨10, 7⟩, ⟨9, 7⟩, ⟨8, 7⟩],
              heading := Direction.Left, food := ⟨0, 0⟩ },
            ⟨9, 7⟩, some ⟨9, 7⟩,
            some ({ state := GameState.GameOver, score := 0,
                    body := [⟨9, 7⟩, ⟨10, 7⟩, ⟨9, 7⟩],
                    heading := Direction.Left, food := ⟨0, 0⟩ },
                  [Event.gameStateChanged GameState.GameOver, Event.gameOver 0])) := by
    rfl
  unfold reversalRun at hval
  cases hrun : (GameLogic.new 20 15 firstCandidate).run
      [Command.startGame, Command.setDirection Direction.Up,
       Command.setDirection Direction.Left] with
  | none => rw [hrun] at hval; cases hval
  | some r =>
    obtain ⟨g, ev⟩ := r
    rw [hrun] at hval
    simp only [Option.map_some', Option.some.injEq, Prod.mk.injEq] at hval
    exact ⟨g, ev, rfl, Reachable.run _ Reachable.init hrun, hval.1, hval.2.1, hval.2.2.1,
      hval.2.2.2⟩

namespace Food

/-- C7: with an in-range generator `Food.respawn` returns; the flag is false
exactly when every board cell occurs in the exclusion list, and then the food
position is unchanged; when the flag is true the new food position is a board
cell that does not occur in the exclusion list.  The board is never changed. -/
theorem respawn_spec (f : Food) (ex : List QPoint) (hgen : f.randomGenerator.InRange) :
    ∃ ok f1, f.respawn ex = some (ok, f1) ∧
      (ok = false ↔ ∀ p, f.InBoard p → p ∈ ex) ∧
      (ok = false → f1.position = f.position) ∧
      (ok = true → f.InBoard f1.position ∧ f1.position ∉ ex) ∧
      f1.boardWidth = f.boardWidth ∧ f1.boardHeight = f.boardHeight := by
  by_cases hnil : f.getAvailablePositions ex = []
  · refine ⟨false, f, respawn_of_nil f ex hnil, ?_, fun _ => rfl, ?_, rfl, rfl⟩
    · simpa using (getAvailablePositions_eq_nil_iff f ex).1 hnil
    · intro h; cases h
  · obtain ⟨p, hp, hres⟩ := respawn_of_inRange f ex hgen hnil
    refine ⟨true, _, hres, ?_, ?_, ?_, rfl, rfl⟩
    · constructor
      · intro h; cases h
      · intro h; exact absurd ((getAvailablePositions_eq_nil_iff f ex).2 h) hnil
    · intro h; cases h
    · intro _; exact (mem_getAvailablePositions f ex p).1 hp

/-- The theorem of C7 on the 2 x 2 board with (0,0) excluded. -/
theorem respawn_spec_witness :
    ∃ ok f1, scenarioF.respawn [⟨0, 0⟩] = some (ok, f1) ∧
      (ok = false ↔ ∀ p, scenarioF.InBoard p → p ∈ [(⟨0, 0⟩ : QPoint)]) ∧
      (ok = false → f1.position = scenarioF.position) ∧
      (ok = true → scenarioF.InBoard f1.position ∧ f1.position ∉ [(⟨0, 0⟩ : QPoint)]) ∧
      f1.boardWidth = scenarioF.boardWidth ∧ f1.boardHeight = scenarioF.boardHeight :=
  respawn_spec scenarioF [⟨0, 0⟩] firstCandidate_inRange

/-- C8: the candidate list of `Food.respawn` holds exactly the board cells
that are not excluded, each once, in increasing order of `x` and then `y`;
when the generator returns `k` the food goes to the candidate of index `k`.
So with a generator that always returns `min` and every board cell but `c`
excluded the food goes to `c`, and with every board cell excluded `respawn`
returns false and changes nothing. -/
theorem getAvailablePositions_spec (f : Food) (ex : List QPoint) :
    (∀ p, p ∈ f.getAvailablePositions ex ↔ f.InBoard p ∧ p ∉ ex) ∧
    (∀ p, f.InBoard p → p ∉ ex → (f.getAvailablePositions ex).count p = 1) ∧
    (f.getAvailablePositions ex).Pairwise QPoint.lexLt ∧
    (∀ (k : Nat) (p : QPoint),
      f.randomGenerator f.rngCalls 0 (((f.getAvailablePositions ex).length : Int) - 1) = k →
      (f.getAvailablePositions ex)[k]? = some p →
      ∃ f1, f.respawn ex = some (true, f1) ∧ f1.position = p) ∧
    (∀ c : QPoint, (∀ n lo hi, f.randomGenerator n lo hi = lo) →
      f.InBoard c → c ∉ ex → (∀ p, f.InBoard p → p ≠ c → p ∈ ex) →
      ∃ f1, f.respawn ex = some (true, f1) ∧ f1.position = c) ∧
    ((∀ p, f.InBoard p → p ∈ ex) → f.respawn ex = some (false, f)) := by
  refine ⟨mem_getAvailablePositions f ex, ?_, pairwise_getAvailablePositions f ex, ?_, ?_, ?_⟩
  · intro p hin hex
    exact List.count_eq_one_of_mem (nodup_getAvailablePositions f ex)
      ((mem_getAvailablePositions f ex p).2 ⟨hin, hex⟩)
  · intro k p hk hp
    exact ⟨_, respawn_of_index f ex k p hk hp, rfl⟩
  · intro c hstub hin hex hall
    have hmem : c ∈ f.getAvailablePositions ex := (mem_getAvailablePositions f ex c).2 ⟨hin, hex⟩
    have hlen : 0 < (f.getAvailablePositions ex).length := List.length_pos_of_mem hmem
    have h0 : (f.getAvailablePositions ex)[0]? = some (f.getAvailablePositions ex)[0] :=
      List.getElem?_eq_getElem hlen
    have hfirst : (f.getAvailablePositions ex)[0] = c := by
      by_contra hne
      obtain ⟨hin0, hex0⟩ := (mem_getAvailablePositions f ex _).1
        (List.getElem_mem hlen)
      exact hex0 (hall _ hin0 hne)
    refine ⟨_, respawn_of_index f ex 0 _ ?_ h0, hfirst⟩
    rw [hstub]; rfl
  · intro hall
    exact respawn_of_nil f ex ((getAvailablePositions_eq_nil_iff f ex).2 hall)

/-- Scenario F of the specification, through the theorem of C8: on the 2 x 2
board with all cells but (1,0) excluded the food goes to (1,0). -/
theorem getAvailablePositions_spec_witness :
    ∃ f1, scenarioF.respawn [⟨0, 0⟩, ⟨0, 1⟩, ⟨1, 1⟩] = some (true, f1) ∧
      f1.position = ⟨1, 0⟩ :=
  (getAvailablePositions_spec scenarioF [⟨0, 0⟩, ⟨0, 1⟩, ⟨1, 1⟩]).2.2.2.2.1 ⟨1, 0⟩
    (fun _ _ _ => rfl) (by decide) (by decide) (by
      rintro ⟨x, y⟩ ⟨h1, h2, h3, h4⟩ hne
      have hx : x = 0 ∨ x = 1 := by
        have h0 : 0 ≤ x := h1
        have : x < 2 := h2
        omega
      have hy : y = 0 ∨ y = 1 := by
        have h0 : 0 ≤ y := h3
        have : y < 2 := h4
        omega
      rcases hx with rfl | rfl <;> rcases hy with rfl | rfl <;> simp at hne ⊢)

end Food

namespace GameLogic

/-- C9: from every engine state (with the in-range generator every engine
has) `resetGame` returns with score 0, state Ready, a snake of length 3 whose
head is (width / 2, height / 2) with the truncating division of C++, heading
Right, body cell `i` at (head.x - i, head.y), and the board unchanged; a
second `resetGame` returns too and gives the same score, state, snake and
board as the first. -/
theorem resetGame_spec (g : GameLogic) (hgen : g.food.randomGenerator.InRange) :
    ∃ g1 ev, g.resetGame = some (g1, ev) ∧
      g1.score = 0 ∧ g1.state = GameState.Ready ∧
      g1.snake.body.length = 3 ∧
      g1.snake.getHead = ⟨Int.tdiv g.boardWidth 2, Int.tdiv g.boardHeight 2⟩ ∧
      g1.snake.currentDirection = Direction.Right ∧
      (∀ i : Nat, i < 3 →
        g1.snake.body[i]? = some ⟨g1.snake.getHead.x - (i : Int), g1.snake.getHead.y⟩) ∧
      g1.boardWidth = g.boardWidth ∧ g1.boardHeight = g.boardHeight ∧
      ∃ g2 ev2, g1.resetGame = some (g2, ev2) ∧
        g2.score = g1.score ∧ g2.state = g1.state ∧ g2.snake = g1.snake ∧
        g2.boardWidth = g1.boardWidth ∧ g2.boardHeight = g1.boardHeight := by
  obtain ⟨g1, ev, h1⟩ := resetGame_isSome g hgen
  obtain ⟨hsc, hst, -, hsn, hw, hh, -, -, hg, -⟩ := resetGame_fields g g1 ev h1
  obtain ⟨g2, ev2, h2⟩ := resetGame_isSome g1 (by rw [hg]; exact hgen)
  obtain ⟨hsc2, hst2, -, hsn2, hw2, hh2, -⟩ := resetGame_fields g1 g2 ev2 h2
  refine ⟨g1, ev, h1, hsc, hst, ?_, ?_, ?_, ?_, hw, hh, g2, ev2, h2, ?_, ?_, ?_, hw2, hh2⟩
  · rw [hsn]; rfl
  · rw [hsn]; rfl
  · rw [hsn]
  · intro i hi
    rw [hsn]
    have : i = 0 ∨ i = 1 ∨ i = 2 := by omega
    rcases this with rfl | rfl | rfl <;> simp [Snake.getHead]
  · rw [hsc2, hsc]
  · rw [hst2, hst]
  · rw [hsn2, hsn, hw, hh]

/-- The theorem of C9 on the state of scenario D (Running, a snake of length 5). -/
theorem resetGame_spec_witness :
    ∃ g1 ev, scenarioD.resetGame = some (g1, ev) ∧
      g1.score = 0 ∧ g1.state = GameState.Ready ∧
      g1.snake.body.length = 3 ∧
      g1.snake.getHead = ⟨10, 7⟩ ∧
      g1.snake.currentDirection = Direction.Right ∧
      (∀ i : Nat, i < 3 →
        g1.snake.body[i]? = some ⟨g1.snake.getHead.x - (i : Int), g1.snake.getHead.y⟩) ∧
      g1.boardWidth = 20 ∧ g1.boardHeight = 15 ∧
      ∃ g2 ev2, g1.resetGame = some (g2, ev2) ∧
        g2.score = g1.score ∧ g2.state = g1.state ∧ g2.snake = g1.snake ∧
        g2.boardWidth = g1.boardWidth ∧ g2.boardHeight = g1.boardHeight :=
  resetGame_spec scenarioD firstCandidate_inRange

/-- C10: from Ready or GameOver (with the in-range generator every engine
has) `startGame` returns with state Running, score 0, the snake of length 3
with its head at (width / 2, height / 2) heading Right, the board unchanged
and, when a board cell is free, the food on a board cell outside the body;
the last four events are the change to Running followed by `snakeMoved`,
`foodSpawned` and `scoreChanged` with this body, this food position and 0. -/
theorem startGame_from_ready_or_gameOver (g : GameLogic)
    (hs : g.state = GameState.Ready ∨ g.state = GameState.GameOver)
    (hgen : g.food.randomGenerator.InRange) :
    ∃ g1 ev, g.startGame = some (g1, ev) ∧
      g1.state = GameState.Running ∧ g1.score = 0 ∧
      g1.snake = ⟨[⟨Int.tdiv g.boardWidth 2, Int.tdiv g.boardHeight 2⟩,
                   ⟨Int.tdiv g.boardWidth 2 - 1, Int.tdiv g.boardHeight 2⟩,
                   ⟨Int.tdiv g.boardWidth 2 - 2, Int.tdiv g.boardHeight 2⟩], Direction.Right⟩ ∧
      g1.boardWidth = g.boardWidth ∧ g1.boardHeight = g.boardHeight ∧
      ((∃ c, g1.InBoard c ∧ c ∉ g1.snake.body) →
        g1.InBoard g1.food.position ∧ g1.food.position ∉ g1.snake.body) ∧
      ∃ ev0, ev = ev0 ++ [Event.gameStateChanged GameState.Running,
        Event.snakeMoved g1.snake.body, Event.foodSpawned g1.food.position,
        Event.scoreChanged 0] := by
  obtain ⟨g0, ev0, h0⟩ := resetGame_isSome g hgen
  obtain ⟨hsc, hst, -, hsn, hw, hh, -, -, -, hfood, -, -⟩ := resetGame_fields g g0 ev0 h0
  have hstart : g.startGame = some
      ({ g0 with state := GameState.Running, timerActive := true },
        ev0 ++ [Event.gameStateChanged GameState.Running] ++
          [Event.snakeMoved g0.snake.body, Event.foodSpawned g0.food.position,
           Event.scoreChanged g0.score]) := by
    unfold startGame
    rw [if_pos hs, h0]
    simp [hst, setState, Snake.getBody, Food.getPosition]
  refine ⟨_, _, hstart, rfl, hsc, hsn, hw, hh, hfood, ev0, ?_⟩
  simp [hsc]

/-- The theorem of C10 on a freshly constructed engine (state Ready). -/
theorem startGame_from_ready_or_gameOver_witness :
    ∃ g1 ev, (GameLogic.new 20 15 firstCandidate).startGame = some (g1, ev) ∧
      g1.state = GameState.Running ∧ g1.score = 0 ∧
      g1.snake = ⟨[⟨10, 7⟩, ⟨9, 7⟩, ⟨8, 7⟩], Direction.Right⟩ ∧
      g1.boardWidth = 20 ∧ g1.boardHeight = 15 ∧
      ((∃ c, g1.InBoard c ∧ c ∉ g1.snake.body) →
        g1.InBoard g1.food.position ∧ g1.food.position ∉ g1.snake.body) ∧
      ∃ ev0, ev = ev0 ++ [Event.gameStateChanged GameState.Running,
        Event.snakeMoved g1.snake.body, Event.foodSpawned g1.food.position,
        Event.scoreChanged 0] :=
  startGame_from_ready_or_gameOver (GameLogic.new 20 15 firstCandidate) (Or.inl rfl)
    firstCandidate_inRange

end GameLogic

namespace GameLogic

/-- C11: `startGame` in state Running or Paused returns the engine state it was
given, whole, and publishes no event. -/
theorem startGame_running_or_paused (g : GameLogic)
    (h : g.state = GameState.Running ∨ g.state = GameState.Paused) :
    g.startGame = some (g, []) :=
  startGame_noop g h

/-- The theorem of C11 on scenario A (Running, score 0): nothing changes. -/
theorem startGame_running_or_paused_witness :
    scenarioA.startGame = some (scenarioA, []) :=
  startGame_running_or_paused scenarioA (Or.inl (by decide))

/-- C12: `pauseGame` from Running gives state Paused, `resumeGame` from Paused
gives state Running, and both keep snake (body and heading), food and score.
Pause then resume from a Running state gives the state back with the timer
running; so it gives back exactly the original state whenever the timer was
running, which is the case in every reachable Running state. -/
theorem pause_resume_round_trip :
    (∀ g : GameLogic, g.state = GameState.Running →
      g.pauseGame.1.state = GameState.Paused ∧ g.pauseGame.1.snake = g.snake ∧
      g.pauseGame.1.food = g.food ∧ g.pauseGame.1.score = g.score) ∧
    (∀ g : GameLogic, g.state = GameState.Paused →
      g.resumeGame.1.state = GameState.Running ∧ g.resumeGame.1.snake = g.snake ∧
      g.resumeGame.1.food = g.food ∧ g.resumeGame.1.score = g.score) ∧
    (∀ g : GameLogic, g.state = GameState.Running →
      g.pauseGame.1.resumeGame.1 = { g with timerActive := true }) ∧
    (∀ g : GameLogic, g.state = GameState.Running → g.timerActive = true →
      g.pauseGame.1.resumeGame.1 = g) ∧
    (∀ (w h : Int) (gen : RandomGenerator) (g : GameLogic), Reachable w h gen g →
      g.state = GameState.Running → g.pauseGame.1.resumeGame.1 = g) := by
  have hround : ∀ g : GameLogic, g.state = GameState.Running →
      g.pauseGame.1.resumeGame.1 = { g with timerActive := true } := by
    intro g hr
    rw [pauseGame_of_running g hr, resumeGame_of_paused _ rfl]
    simp only [hr.symm]
  have hfull : ∀ g : GameLogic, g.state = GameState.Running → g.timerActive = true →
      g.pauseGame.1.resumeGame.1 = g := by
    intro g hr ht
    rw [hround g hr, ← ht]
  refine ⟨?_, ?_, hround, hfull, ?_⟩
  · intro g hr
    rw [pauseGame_of_running g hr]
    exact ⟨rfl, rfl, rfl, rfl⟩
  · intro g hp
    rw [resumeGame_of_paused g hp]
    exact ⟨rfl, rfl, rfl, rfl⟩
  · intro w h gen g hreach hr
    exact hfull g hr (hreach.timer.2 hr)

/-- The theorem of C12 on scenario A, a reachable Running state. -/
theorem pause_resume_round_trip_witness :
    scenarioA.pauseGame.1.resumeGame.1 = scenarioA :=
  pause_resume_round_trip.2.2.2.2 20 15 firstCandidate scenarioA scenarioA_reachable
    (by decide)

/-- C13: `pauseGame` in a state other than Running and `resumeGame` in a state
other than Paused return the engine state they were given, whole, and publish
no event. -/
theorem pause_resume_invalid :
    (∀ g : GameLogic, g.state ≠ GameState.Running → g.pauseGame = (g, [])) ∧
    (∀ g : GameLogic, g.state ≠ GameState.Paused → g.resumeGame = (g, [])) :=
  ⟨pauseGame_of_not_running, resumeGame_of_not_paused⟩

/-- The theorem of C13 on a fresh engine (Ready) and on scenario A (Running). -/
theorem pause_resume_invalid_witness :
    (GameLogic.new 20 15 firstCandidate).pauseGame = (GameLogic.new 20 15 firstCandidate, []) ∧
    scenarioA.resumeGame = (scenarioA, []) :=
  ⟨pause_resume_invalid.1 (GameLogic.new 20 15 firstCandidate) (by decide),
   pause_resume_invalid.2 scenarioA (by decide)⟩

/-- C14: `GameLogic.setDirection d` outside Running returns the engine state it
was given, whole, for every `d`.  In Running it replaces the snake by the one
`Snake.setDirection d` leaves: same body, heading unchanged when `d` is the
opposite of the heading and `d` otherwise; nothing else changes and no event
is published. -/
theorem engine_setDirection_spec :
    (∀ (g : GameLogic) (d : Direction), g.state ≠ GameState.Running →
      g.setDirection d = (g, [])) ∧
    (∀ (g : GameLogic) (d : Direction), g.state = GameState.Running →
      g.setDirection d = ({ g with snake := (g.snake.setDirection d).2 }, []) ∧
      g.setDirection d =
        ({ g with snake := ⟨g.snake.body,
            if d = g.snake.currentDirection.opposite then g.snake.currentDirection
            else d⟩ }, [])) := by
  refine ⟨setDirection_of_not_running, ?_⟩
  intro g d hr
  refine ⟨setDirection_of_running g d hr, ?_⟩
  rw [setDirection_of_running g d hr, Snake.setDirection_eq]
  by_cases hd : d = g.snake.currentDirection.opposite
  · simp only [if_pos hd]
  · simp only [if_neg hd]

/-- The theorem of C14 on scenario A (Running, heading Right): Left is dropped,
Up is taken. -/
theorem engine_setDirection_spec_witness :
    (scenarioA.setDirection Direction.Left).1.snake.currentDirection = Direction.Right ∧
    (scenarioA.setDirection Direction.Up).1.snake.currentDirection = Direction.Up :=
  ⟨by rw [(engine_setDirection_spec.2 scenarioA Direction.Left (by decide)).2]; rfl,
   by rw [(engine_setDirection_spec.2 scenarioA Direction.Up (by decide)).2]; rfl⟩

/-- C15: in a running, well-formed game, when the candidate head is inside the
board and is the food cell, and the grown body (candidate head followed by the
old body) covers every board cell, one tick returns; the body is the grown
body, one cell longer; the score is 10 higher; the state is GameOver. -/
theorem onGameTick_board_full (g : GameLogic)
    (hrun : g.state = GameState.Running)
    (hwf : g.WellFormed)
    (hin : g.InBoard g.nextHead)
    (hfood : g.nextHead = g.food.position)
    (hfull : ∀ c, g.InBoard c → c ∈ g.nextHead :: g.snake.body) :
    ∃ g1 ev, g.onGameTick = some (g1, ev) ∧
      g1.snake.body = g.nextHead :: g.snake.body ∧
      g1.snake.body.length = g.snake.body.length + 1 ∧
      g1.score = g.score + 10 ∧
      g1.state = GameState.GameOver := by
  have hnil : g.food.getAvailablePositions (g.nextHead :: g.snake.body) = [] := by
    rw [Food.getAvailablePositions_eq_nil_iff]
    intro c hc
    apply hfull
    obtain ⟨h1, h2, h3, h4⟩ := hc
    exact ⟨h1, by rw [← hwf.1]; exact h2, h3, by rw [← hwf.2]; exact h4⟩
  obtain ⟨g1, ev, h⟩ := onGameTick_isSome_of g (by
    intro _ _ _
    refine ⟨_, spawnFood_of_nil _ ?_⟩
    show g.food.getAvailablePositions g.snake.grow.body = []
    rw [grow_eq_of_inBoard g hin]
    exact hnil)
  refine ⟨g1, ev, h, ?_⟩
  rcases onGameTick_inv g g1 ev h with ⟨hn, -, -⟩ | ⟨-, hout, -, -⟩ |
    ⟨-, -, hne, -⟩ | ⟨-, -, -, hs, hsc, hc⟩
  · exact absurd hrun hn
  · exact absurd hin hout
  · exact absurd hfood hne
  · have hst : g1.state = GameState.GameOver := by
      rcases hc with ⟨-, -, hst, -⟩ | ⟨hmem, -⟩
      · exact hst
      · rw [hnil] at hmem
        cases hmem
    rw [hs]
    exact ⟨rfl, rfl, hsc, hst⟩

/-- The theorem of C15 on the 4 x 1 board: the snake [(2,0),(1,0),(0,0)] eats
at (3,0) and fills the board. -/
theorem onGameTick_board_full_witness :
    ∃ g1 ev, scenarioFull.onGameTick = some (g1, ev) ∧
      g1.snake.body = [⟨3, 0⟩, ⟨2, 0⟩, ⟨1, 0⟩, ⟨0, 0⟩] ∧
      g1.snake.body.length = 3 + 1 ∧
      g1.score = 0 + 10 ∧
      g1.state = GameState.GameOver :=
  onGameTick_board_full scenarioFull (by decide) (by decide) (by decide) (by decide) (by
    rintro ⟨x, y⟩ ⟨h1, h2, h3, h4⟩
    have hx0 : 0 ≤ x := h1
    have hx1 : x < 4 := h2
    have hy0 : 0 ≤ y := h3
    have hy1 : y < 1 := h4
    have hy : y = 0 := by omega
    have hx : x = 0 ∨ x = 1 ∨ x = 2 ∨ x = 3 := by omega
    subst hy
    rcases hx with rfl | rfl | rfl | rfl <;> decide)

/-- C16, evaluated on the code, which fails the claim: `scenarioFull` is the
reachable Running state that `startGame` leaves on a 4 x 1 board.  Its next
tick eats at (3,0), finds no free cell and ends in GameOver; after
`gameOver 10` the same tick still publishes `snakeMoved` with the grown body. -/
theorem board_full_tick_publishes_snakeMoved :
    Reachable 4 1 firstCandidate scenarioFull ∧
    scenarioFull.state = GameState.Running ∧
    scenarioFull.onGameTick.map (fun t => (t.1.observe, t.2)) =
      some ({ state := GameState.GameOver, score := 10,
              body := [⟨3, 0⟩, ⟨2, 0⟩, ⟨1, 0⟩, ⟨0, 0⟩],
              heading := Direction.Right, food := ⟨3, 0⟩ },
            [Event.scoreChanged 10, Event.gameStateChanged GameState.GameOver,
             Event.gameOver 10, Event.snakeMoved [⟨3, 0⟩, ⟨2, 0⟩, ⟨1, 0⟩, ⟨0, 0⟩]]) :=
  ⟨scenarioFull_reachable, rfl, rfl⟩

/-- C17: in a running game with a non-empty body and an in-range generator one
tick returns; the body is one cell longer when the candidate head is inside
the board and on the food, and has the same length in every other case. -/
theorem onGameTick_length (g : GameLogic)
    (hrun : g.state = GameState.Running)
    (hne : g.snake.body ≠ [])
    (hgen : g.food.randomGenerator.InRange) :
    ∃ g1 ev, g.onGameTick = some (g1, ev) ∧
      ((g.InBoard g.nextHead ∧ g.nextHead = g.food.position) →
        g1.snake.body.length = g.snake.body.length + 1) ∧
      (¬ (g.InBoard g.nextHead ∧ g.nextHead = g.food.position) →
        g1.snake.body.length = g.snake.body.length) := by
  obtain ⟨g1, ev, h⟩ := onGameTick_isSome g hgen
  refine ⟨g1, ev, h, ?_⟩
  have hpos : 0 < g.snake.body.length := List.length_pos.2 hne
  rcases onGameTick_inv g g1 ev h with ⟨hn, -, -⟩ | ⟨-, hout, rfl, -⟩ |
    ⟨-, hin, hnf, hs, -⟩ | ⟨-, hin, hfood, hs, -⟩
  · exact absurd hrun hn
  · exact ⟨fun hh => absurd hh.1 hout, fun _ => rfl⟩
  · refine ⟨fun hh => absurd hh.2 hnf, fun _ => ?_⟩
    rw [hs]
    simp only [List.length_cons, List.length_dropLast]
    omega
  · refine ⟨fun _ => ?_, fun hh => absurd ⟨hin, hfood⟩ hh⟩
    rw [hs]
    rfl

/-- The theorem of C17 on scenario B (the head enters the food cell): length 3
becomes 4. -/
theorem onGameTick_length_witness :
    ∃ g1 ev, scenarioB.onGameTick = some (g1, ev) ∧ g1.snake.body.length = 3 + 1 := by
  obtain ⟨g1, ev, h, hate, -⟩ :=
    onGameTick_length scenarioB (by decide) (by decide) firstCandidate_inRange
  exact ⟨g1, ev, h, hate ⟨by decide, by decide⟩⟩

/-- C18: the score is never negative in a reachable state.  `pauseGame`,
`resumeGame` and `setDirection` keep it, and so does `startGame` from Running
or Paused.  A tick (which returns, the generator being in range) adds 10 when
the snake eats (Running, candidate head inside the board and on the food) and
keeps the score otherwise.  `resetGame`, and `startGame` from Ready or
GameOver, return with score 0.  So a step keeps the score, adds 10, or is one
of these resets. -/
theorem score_spec :
    (∀ (w h : Int) (gen : RandomGenerator) (g : GameLogic),
      Reachable w h gen g → 0 ≤ g.score) ∧
    (∀ g : GameLogic, g.pauseGame.1.score = g.score) ∧
    (∀ g : GameLogic, g.resumeGame.1.score = g.score) ∧
    (∀ (g : GameLogic) (d : Direction), (g.setDirection d).1.score = g.score) ∧
    (∀ g : GameLogic, g.state = GameState.Running ∨ g.state = GameState.Paused →
      g.startGame = some (g, [])) ∧
    (∀ g : GameLogic, g.food.randomGenerator.InRange →
      ∃ g1 ev, g.onGameTick = some (g1, ev) ∧
        (((g.state = GameState.Running ∧ g.InBoard g.nextHead ∧
            g.nextHead = g.food.position) ∧ g1.score = g.score + 10) ∨
         (¬ (g.state = GameState.Running ∧ g.InBoard g.nextHead ∧
            g.nextHead = g.food.position) ∧ g1.score = g.score))) ∧
    (∀ g : GameLogic, g.food.randomGenerator.InRange →
      ∃ g1 ev, g.resetGame = some (g1, ev) ∧ g1.score = 0) ∧
    (∀ g : GameLogic, g.state = GameState.Ready ∨ g.state = GameState.GameOver →
      g.food.randomGenerator.InRange →
      ∃ g1 ev, g.startGame = some (g1, ev) ∧ g1.score = 0) ∧
    (∀ (g g1 : GameLogic) (ev : List Event) (c : Command), g.step c = some (g1, ev) →
      g1.score = g.score ∨ g1.score = g.score + 10 ∨
      ((c = Command.resetGame ∨
          (c = Command.startGame ∧
            (g.state = GameState.Ready ∨ g.state = GameState.GameOver))) ∧
        g1.score = 0)) := by
  refine ⟨fun w h gen g hr => hr.score_nonneg, pauseGame_score, resumeGame_score,
    setDirection_score, startGame_noop, ?_, ?_, ?_, ?_⟩
  · intro g hgen
    obtain ⟨g1, ev, h⟩ := onGameTick_isSome g hgen
    exact ⟨g1, ev, h, onGameTick_score g g1 ev h⟩
  · intro g hgen
    obtain ⟨g1, ev, h⟩ := resetGame_isSome g hgen
    exact ⟨g1, ev, h, (resetGame_fields g g1 ev h).1⟩
  · intro g hs hgen
    obtain ⟨g0, ev0, h0⟩ := resetGame_isSome g hgen
    cases hst : g.startGame with
    | none =>
      exfalso
      unfold startGame at hst
      rw [if_pos hs, h0] at hst
      simp only at hst
      split at hst <;> cases hst
    | some r =>
      obtain ⟨g1, ev⟩ := r
      refine ⟨g1, ev, rfl, ?_⟩
      rcases startGame_inv g g1 ev hst with ⟨hrp, -, -⟩ | ⟨-, g0, ev0, h0, rfl, -⟩
      · rcases hs with hs | hs <;> rcases hrp with hrp | hrp <;> rw [hs] at hrp <;> cases hrp
      · exact (resetGame_fields g g0 ev0 h0).1
  · intro g g1 ev c h
    cases c with
    | startGame =>
      rcases startGame_inv g g1 ev h with ⟨-, rfl, -⟩ | ⟨hs, g0, ev0, h0, rfl, -⟩
      · exact Or.inl rfl
      · exact Or.inr (Or.inr ⟨Or.inr ⟨rfl, hs⟩, (resetGame_fields g g0 ev0 h0).1⟩)
    | pauseGame =>
      simp only [step, Option.some.injEq] at h
      have h1 : g1 = g.pauseGame.1 := by rw [h]
      rw [h1]; exact Or.inl (pauseGame_score g)
    | resumeGame =>
      simp only [step, Option.some.injEq] at h
      have h1 : g1 = g.resumeGame.1 := by rw [h]
      rw [h1]; exact Or.inl (resumeGame_score g)
    | resetGame =>
      exact Or.inr (Or.inr ⟨Or.inl rfl, (resetGame_fields g g1 ev h).1⟩)
    | setDirection d =>
      simp only [step, Option.some.injEq] at h
      have h1 : g1 = (g.setDirection d).1 := by rw [h]
      rw [h1]; exact Or.inl (setDirection_score g d)
    | tick =>
      rcases onGameTick_score g g1 ev h with ⟨-, hsc⟩ | ⟨-, hsc⟩
      · exact Or.inr (Or.inl hsc)
      · exact Or.inl hsc

/-- The theorem of C18 on concrete states: the reachable end state of the
4 x 1 game has a score of at least 0, and the tick of scenario B adds 10. -/
theorem score_spec_witness :
    0 ≤ scenarioFullOver.score ∧
    ∃ g1 ev, scenarioB.onGameTick = some (g1, ev) ∧ g1.score = 0 + 10 := by
  refine ⟨score_spec.1 4 1 firstCandidate scenarioFullOver scenarioFullOver_reachable, ?_⟩
  obtain ⟨g1, ev, h, hsc⟩ := score_spec.2.2.2.2.2.1 scenarioB firstCandidate_inRange
  refine ⟨g1, ev, h, ?_⟩
  rcases hsc with ⟨-, hsc⟩ | ⟨hno, -⟩
  · exact hsc
  · exact absurd ⟨by decide, by decide, by decide⟩ hno

end GameLogic

/-- C19 as stated fails: on a 4 x 1 board, with the in-range generator that
returns `min`, the state reached by `startGame` and one tick has its food
placed at (3,0), which is the head of the snake. -/
theorem food_on_snake_after_board_full :
    ¬ (∀ (w h : Int) (gen : RandomGenerator) (g : GameLogic), gen.InRange →
        Reachable w h gen g → g.food.position ≠ ⟨-1, -1⟩ →
        g.food.position ∉ g.snake.body) := by
  intro hall
  exact hall 4 1 firstCandidate scenarioFullOver firstCandidate_inRange
    scenarioFullOver_reachable (by decide) (by decide)

/-- C19, amended: in every reachable engine state in which the food is placed,
the food position is no snake body cell, or the state is GameOver with the
food under the snake head and the body over every board cell (the end of a
growth tick whose respawn found no free cell).  So a placed food is off the
snake in every reachable state that is Ready, Running or Paused. -/
theorem food_disjoint_or_board_full :
    (∀ (w h : Int) (gen : RandomGenerator) (g : GameLogic), gen.InRange →
      Reachable w h gen g → g.food.position ≠ ⟨-1, -1⟩ →
      g.food.position ∉ g.snake.body ∨
      (g.state = GameState.GameOver ∧ g.snake.getHead = g.food.position ∧
        ∀ c, g.InBoard c → c ∈ g.snake.body)) ∧
    (∀ (w h : Int) (gen : RandomGenerator) (g : GameLogic), gen.InRange →
      Reachable w h gen g → g.food.position ≠ ⟨-1, -1⟩ →
      g.state ≠ GameState.GameOver → g.food.position ∉ g.snake.body) := by
  refine ⟨fun w h gen g _ hr hp => hr.food hp, ?_⟩
  intro w h gen g _ hr hp hs
  rcases hr.food hp with hd | ⟨hgo, -⟩
  · exact hd
  · exact absurd hgo hs

/-- The amended C19 on scenario A, a reachable Running state with its food at
(0,0). -/
theorem food_disjoint_or_board_full_witness :
    scenarioA.food.position ∉ scenarioA.snake.body :=
  food_disjoint_or_board_full.2 20 15 firstCandidate scenarioA firstCandidate_inRange
    scenarioA_reachable (by decide) (by decide)

/-- C20: on a board with at least one column and one row, the head of the
snake is inside the board in every reachable Running state; and from every
Running state whose candidate head is outside the board a tick returns the
same state but for GameOver and the stopped timer (the snake is not moved),
publishing the state change and `gameOver` only. -/
theorem head_in_bounds :
    (∀ (w h : Int) (gen : RandomGenerator) (g : GameLogic), 1 ≤ w → 1 ≤ h →
      Reachable w h gen g → g.state = GameState.Running →
      0 ≤ g.snake.getHead.x ∧ g.snake.getHead.x < w ∧
      0 ≤ g.snake.getHead.y ∧ g.snake.getHead.y < h) ∧
    (∀ g : GameLogic, g.state = GameState.Running → ¬ g.InBoard g.nextHead →
      g.onGameTick = some ({ g with timerActive := false, state := GameState.GameOver },
        [Event.gameStateChanged GameState.GameOver, Event.gameOver g.score])) := by
  refine ⟨?_, GameLogic.onGameTick_wall_eq⟩
  intro w h gen g hw hh hr hs
  have hin := hr.head hw hh (Or.inl hs)
  unfold GameLogic.InBoard at hin
  rw [hr.frame.1, hr.frame.2.1] at hin
  exact hin

/-- The theorem of C20 on scenario A (reachable, Running, head (10,7)) and on
scenario C (the head leaves the 20 x 15 board on the right). -/
theorem head_in_bounds_witness :
    (0 ≤ scenarioA.snake.getHead.x ∧ scenarioA.snake.getHead.x < 20 ∧
      0 ≤ scenarioA.snake.getHead.y ∧ scenarioA.snake.getHead.y < 15) ∧
    scenarioC.onGameTick =
      some ({ scenarioC with timerActive := false, state := GameState.GameOver },
        [Event.gameStateChanged GameState.GameOver, Event.gameOver scenarioC.score]) :=
  ⟨head_in_bounds.1 20 15 firstCandidate scenarioA (by decide) (by decide)
    scenarioA_reachable (by decide),
   head_in_bounds.2 scenarioC (by decide) (by decide)⟩

/-- C21 as stated fails: on a 3 x 3 board, with the in-range generator that
returns `min`, the state `startGame` leaves is Running with the body
[(1,1),(0,1),(-1,1)], whose last cell is left of the board. -/
theorem body_outside_narrow_board :
    ¬ (∀ (w h : Int) (gen : RandomGenerator) (g : GameLogic), 1 ≤ w → 1 ≤ h → gen.InRange →
        Reachable w h gen g → g.state = GameState.Running →
        ∀ p ∈ g.snake.body, 0 ≤ p.x ∧ p.x < w ∧ 0 ≤ p.y ∧ p.y < h) := by
  intro hall
  have h := hall 3 3 firstCandidate scenarioNarrow (by decide) (by decide)
    firstCandidate_inRange scenarioNarrow_reachable (by decide) ⟨-1, 1⟩ (by decide)
  exact absurd h.1 (by decide)

/-- C21, amended: on every board with width at least 4 and height at least 1,
in every reachable engine state with state Running every snake body cell lies
within [0,width) x [0,height). -/
theorem body_in_bounds (w h : Int) (gen : RandomGenerator) (g : GameLogic)
    (hw : 4 ≤ w) (hh : 1 ≤ h) (hr : Reachable w h gen g)
    (hs : g.state = GameState.Running) :
    ∀ p ∈ g.snake.body, 0 ≤ p.x ∧ p.x < w ∧ 0 ≤ p.y ∧ p.y < h := by
  intro p hp
  have hin := hr.body_inBoard hw hh (Or.inl hs) p hp
  unfold GameLogic.InBoard at hin
  rw [hr.frame.1, hr.frame.2.1] at hin
  exact hin

/-- The amended C21 on scenario A, a reachable Running state of the 20 x 15
board, at its tail cell (8,7). -/
theorem body_in_bounds_witness :
    0 ≤ (⟨8, 7⟩ : QPoint).x ∧ (⟨8, 7⟩ : QPoint).x < 20 ∧
    0 ≤ (⟨8, 7⟩ : QPoint).y ∧ (⟨8, 7⟩ : QPoint).y < 15 :=
  body_in_bounds 20 15 firstCandidate scenarioA (by decide) (by decide) scenarioA_reachable
    (by decide) ⟨8, 7⟩ (by decide)

/-- C22: in every reachable engine state the snake has at least one cell (at
least three, in fact), and in every reachable state that is Ready, Running or
Paused the body cells are pairwise distinct. -/
theorem body_invariant :
    (∀ (w h : Int) (gen : RandomGenerator) (g : GameLogic), Reachable w h gen g →
      1 ≤ g.snake.body.length ∧ 3 ≤ g.snake.body.length) ∧
    (∀ (w h : Int) (gen : RandomGenerator) (g : GameLogic), Reachable w h gen g →
      g.state = GameState.Ready ∨ g.state = GameState.Running ∨
        g.state = GameState.Paused →
      g.snake.body.Nodup) := by
  refine ⟨fun w h gen g hr => ⟨le_trans (by decide) hr.body_length, hr.body_length⟩, ?_⟩
  intro w h gen g hr hs
  apply hr.body_nodup
  rcases hs with hs | hs | hs <;> rw [hs] <;> decide

/-- The theorem of C22 on scenario A, a reachable Running state. -/
theorem body_invariant_witness :
    (1 ≤ scenarioA.snake.body.length ∧ 3 ≤ scenarioA.snake.body.length) ∧
    scenarioA.snake.body.Nodup :=
  ⟨body_invariant.1 20 15 firstCandidate scenarioA scenarioA_reachable,
   body_invariant.2 20 15 firstCandidate scenarioA scenarioA_reachable (Or.inr (Or.inl rfl))⟩

namespace GameLogic

/-- C23: (a) `pauseGame`, `resumeGame`, `setDirection` from a state other than
GameOver end in a state other than GameOver; `resetGame` always ends in Ready,
`startGame` from a state other than GameOver ends in a state other than
GameOver; a tick from Running that ends in GameOver had its candidate head
outside the board, or on a cell of the post-move body (self-collision, with or
without growth), or on the food with no board cell free after the growth.
(b) From GameOver, `pauseGame`, `resumeGame`, `setDirection` and a tick return
the state whole, without events; `resetGame` returns with state Ready and
`startGame` with state Running. -/
theorem gameOver_terminal :
    (∀ g : GameLogic, g.state ≠ GameState.GameOver →
      g.pauseGame.1.state ≠ GameState.GameOver ∧
      g.resumeGame.1.state ≠ GameState.GameOver ∧
      ∀ d, (g.setDirection d).1.state ≠ GameState.GameOver) ∧
    (∀ (g g1 : GameLogic) (ev : List Event), g.resetGame = some (g1, ev) →
      g1.state = GameState.Ready) ∧
    (∀ (g g1 : GameLogic) (ev : List Event), g.state ≠ GameState.GameOver →
      g.startGame = some (g1, ev) → g1.state ≠ GameState.GameOver) ∧
    (∀ (g g1 : GameLogic) (ev : List Event), g.state = GameState.Running →
      g.onGameTick = some (g1, ev) → g1.state = GameState.GameOver →
      ¬ g.InBoard g.nextHead ∨
      (g.nextHead ≠ g.food.position ∧ g.nextHead ∈ g.snake.body.dropLast) ∨
      (g.nextHead = g.food.position ∧ g.nextHead ∈ g.snake.body) ∨
      (g.nextHead = g.food.position ∧
        ∀ c, g.food.InBoard c → c ∈ g.nextHead :: g.snake.body)) ∧
    (∀ g : GameLogic, g.state = GameState.GameOver →
      g.pauseGame = (g, []) ∧ g.resumeGame = (g, []) ∧
      (∀ d, g.setDirection d = (g, [])) ∧ g.onGameTick = some (g, [])) ∧
    (∀ g : GameLogic, g.state = GameState.GameOver → g.food.randomGenerator.InRange →
      (∃ g1 ev, g.resetGame = some (g1, ev) ∧ g1.state = GameState.Ready) ∧
      (∃ g1 ev, g.startGame = some (g1, ev) ∧ g1.state = GameState.Running)) := by
  refine ⟨?_, ?_, ?_, ?_, ?_, ?_⟩
  · intro g hg
    refine ⟨?_, ?_, ?_⟩
    · by_cases hr : g.state = GameState.Running
      · rw [pauseGame_of_running g hr]; exact fun hh => GameState.noConfusion hh
      · rw [pauseGame_of_not_running g hr]; exact hg
    · by_cases hp : g.state = GameState.Paused
      · rw [resumeGame_of_paused g hp]; exact fun hh => GameState.noConfusion hh
      · rw [resumeGame_of_not_paused g hp]; exact hg
    · intro d
      by_cases hr : g.state = GameState.Running
      · rw [setDirection_of_running g d hr]; exact hg
      · rw [setDirection_of_not_running g d hr]; exact hg
  · intro g g1 ev h
    exact (resetGame_fields g g1 ev h).2.1
  · intro g g1 ev hg h
    rcases startGame_inv g g1 ev h with ⟨-, rfl, -⟩ | ⟨-, g0, ev0, -, rfl, -⟩
    · exact hg
    · exact fun hh => GameState.noConfusion hh
  · intro g g1 ev hrun h hgo
    rcases onGameTick_inv g g1 ev h with ⟨hn, -, -⟩ | ⟨-, hout, -, -⟩ |
      ⟨-, -, hne, -, -, -, hc⟩ | ⟨-, -, hfood, -, -, hc⟩
    · exact absurd hrun hn
    · exact Or.inl hout
    · rcases hc with ⟨-, hst, -⟩ | ⟨hmem, -⟩
      · rw [hst] at hgo; cases hgo
      · exact Or.inr (Or.inl ⟨hne, hmem⟩)
    · rcases hc with ⟨hnil, -⟩ | ⟨-, ⟨-, hst, -⟩ | ⟨hmem, -⟩⟩
      · exact Or.inr (Or.inr (Or.inr ⟨hfood,
          (Food.getAvailablePositions_eq_nil_iff _ _).1 hnil⟩))
      · rw [hst] at hgo; cases hgo
      · exact Or.inr (Or.inr (Or.inl ⟨hfood, hmem⟩))
  · intro g hg
    have hnr : g.state ≠ GameState.Running := by rw [hg]; decide
    have hnp : g.state ≠ GameState.Paused := by rw [hg]; decide
    exact ⟨pauseGame_of_not_running g hnr, resumeGame_of_not_paused g hnp,
      fun d => setDirection_of_not_running g d hnr, onGameTick_not_running g hnr⟩
  · intro g hg hgen
    obtain ⟨g0, ev0, h0⟩ := resetGame_isSome g hgen
    have hst := (resetGame_fields g g0 ev0 h0).2.1
    refine ⟨⟨g0, ev0, h0, hst⟩, ?_⟩
    cases hs : g.startGame with
    | none =>
      exfalso
      unfold startGame at hs
      rw [if_pos (Or.inr hg), h0] at hs
      simp only at hs
      split at hs <;> cases hs
    | some r =>
      obtain ⟨g1, ev⟩ := r
      refine ⟨g1, ev, rfl, ?_⟩
      rcases startGame_inv g g1 ev hs with ⟨hrp, -, -⟩ | ⟨-, g2, ev2, -, rfl, -⟩
      · rcases hrp with hrp | hrp <;> rw [hg] at hrp <;> cases hrp
      · rfl

/-- The theorem of C23 on the reachable GameOver state of the 4 x 1 game:
commands other than reset and start return it whole; `startGame` leaves it
for Running. -/
theorem gameOver_terminal_witness :
    (scenarioFullOver.pauseGame = (scenarioFullOver, []) ∧
      scenarioFullOver.resumeGame = (scenarioFullOver, []) ∧
      scenarioFullOver.setDirection Direction.Up = (scenarioFullOver, []) ∧
      scenarioFullOver.onGameTick = some (scenarioFullOver, [])) ∧
    ∃ g1 ev, scenarioFullOver.startGame = some (g1, ev) ∧ g1.state = GameState.Running :=
  ⟨⟨(gameOver_terminal.2.2.2.2.1 scenarioFullOver (by decide)).1,
    (gameOver_terminal.2.2.2.2.1 scenarioFullOver (by decide)).2.1,
    (gameOver_terminal.2.2.2.2.1 scenarioFullOver (by decide)).2.2.1 Direction.Up,
    (gameOver_terminal.2.2.2.2.1 scenarioFullOver (by decide)).2.2.2⟩,
   (gameOver_terminal.2.2.2.2.2 scenarioFullOver (by decide) firstCandidate_inRange).2⟩

/-- C24: in a Running state with pairwise distinct body cells whose candidate
head is inside the board and is the tail cell: when the candidate head is not
the food, one tick returns with state Running and the body made of the old
tail cell followed by the old body without its last cell; when it is the food
(and the generator is in range), one tick returns with the tail kept (the body
is the candidate head followed by the whole old body) and state GameOver. -/
theorem onGameTick_into_tail (g : GameLogic)
    (hrun : g.state = GameState.Running)
    (hnd : g.snake.body.Nodup)
    (hin : g.InBoard g.nextHead)
    (htail : g.snake.body.getLast? = some g.nextHead) :
    (g.nextHead ≠ g.food.position →
      ∃ g1 ev, g.onGameTick = some (g1, ev) ∧ g1.state = GameState.Running ∧
        g1.snake.body = g.nextHead :: g.snake.body.dropLast ∧
        ev = [Event.snakeMoved (g.nextHead :: g.snake.body.dropLast)]) ∧
    (g.nextHead = g.food.position → g.food.randomGenerator.InRange →
      ∃ g1 ev, g.onGameTick = some (g1, ev) ∧ g1.state = GameState.GameOver ∧
        g1.snake.body = g.nextHead :: g.snake.body) := by
  have hnot : g.nextHead ∉ g.snake.body.dropLast :=
    not_mem_dropLast_of_last _ _ hnd htail
  have hmem : g.nextHead ∈ g.snake.body := mem_of_last _ _ htail
  constructor
  · intro hfood
    obtain ⟨g1, ev, h⟩ := onGameTick_isSome_of g (fun _ _ hf => absurd hf hfood)
    refine ⟨g1, ev, h, ?_⟩
    rcases onGameTick_inv g g1 ev h with ⟨hn, -, -⟩ | ⟨-, hout, -, -⟩ |
      ⟨-, -, -, hs, -, -, hc⟩ | ⟨-, -, hf, -⟩
    · exact absurd hrun hn
    · exact absurd hin hout
    · rcases hc with ⟨-, hst, -, hev⟩ | ⟨hm, -⟩
      · exact ⟨hst, by rw [hs], hev⟩
      · exact absurd hm hnot
    · exact absurd hf hfood
  · intro hfood hgen
    obtain ⟨g1, ev, h⟩ := onGameTick_isSome g hgen
    refine ⟨g1, ev, h, ?_⟩
    rcases onGameTick_inv g g1 ev h with ⟨hn, -, -⟩ | ⟨-, hout, -, -⟩ |
      ⟨-, -, hne, -⟩ | ⟨-, -, -, hs, -, hc⟩
    · exact absurd hrun hn
    · exact absurd hin hout
    · exact absurd hfood hne
    · refine ⟨?_, by rw [hs]⟩
      rcases hc with ⟨-, -, hst, -⟩ | ⟨-, ⟨hnm, -⟩ | ⟨-, hst, -⟩⟩
      · exact hst
      · exact absurd hmem hnm
      · exact hst

/-- The theorem of C24 on a square loop of four cells: moving into the tail
cell (6,5) is allowed without food there and ends the game with food there. -/
theorem onGameTick_into_tail_witness :
    (∃ g1 ev, scenarioTail.onGameTick = some (g1, ev) ∧ g1.state = GameState.Running ∧
        g1.snake.body = [⟨6, 5⟩, ⟨5, 5⟩, ⟨5, 6⟩, ⟨6, 6⟩] ∧
        ev = [Event.snakeMoved [⟨6, 5⟩, ⟨5, 5⟩, ⟨5, 6⟩, ⟨6, 6⟩]]) ∧
    (∃ g1 ev, scenarioTailFood.onGameTick = some (g1, ev) ∧
        g1.state = GameState.GameOver ∧
        g1.snake.body = [⟨6, 5⟩, ⟨5, 5⟩, ⟨5, 6⟩, ⟨6, 6⟩, ⟨6, 5⟩]) :=
  ⟨(onGameTick_into_tail scenarioTail (by decide) (by decide) (by decide) (by decide)).1
      (by decide),
   (onGameTick_into_tail scenarioTailFood (by decide) (by decide) (by decide)
      (by decide)).2 (by decide) firstCandidate_inRange⟩

end GameLogic

/-- C25: on a non-empty body `Snake.move` gives the body made of head +
offset(heading) followed by the old body without its last cell, of the same
length, and keeps the heading; on an empty body it returns the snake as it is. -/
theorem Snake.move_spec (s : Snake) :
    (s.body ≠ [] →
      s.move.body = (s.getHead + DirectionHelper.toOffset s.currentDirection) ::
        s.body.dropLast ∧
      s.move.body.length = s.body.length ∧
      s.move.currentDirection = s.currentDirection) ∧
    (s.body = [] → s.move = s) := by
  constructor
  · intro h
    have hb := Snake.move_body s h
    refine ⟨hb, ?_, Snake.move_currentDirection s⟩
    rw [hb]
    have := List.length_pos.2 h
    simp only [List.length_cons, List.length_dropLast]
    omega
  · intro h
    simp [Snake.move, h]

/-- The theorem of C25 on the snake of scenario A and on an empty snake. -/
theorem Snake.move_spec_witness :
    (Snake.move ⟨[⟨10, 7⟩, ⟨9, 7⟩, ⟨8, 7⟩], Direction.Right⟩).body
        = [⟨11, 7⟩, ⟨10, 7⟩, ⟨9, 7⟩] ∧
    Snake.move ⟨[], Direction.Up⟩ = ⟨[], Direction.Up⟩ :=
  ⟨((Snake.move_spec ⟨[⟨10, 7⟩, ⟨9, 7⟩, ⟨8, 7⟩], Direction.Right⟩).1 (by decide)).1,
   (Snake.move_spec ⟨[], Direction.Up⟩).2 rfl⟩

/-- C26: on a non-empty body `Snake.grow` gives the body made of head +
offset(heading) followed by the whole old body, one cell longer, and keeps the
heading; `grow` and `move` give the same new head, and the body after `move`
is the body after `grow` without its last cell. -/
theorem Snake.grow_spec (s : Snake) (h : s.body ≠ []) :
    s.grow.body = (s.getHead + DirectionHelper.toOffset s.currentDirection) :: s.body ∧
    s.grow.body.length = s.body.length + 1 ∧
    s.grow.currentDirection = s.currentDirection ∧
    s.grow.getHead = s.move.getHead ∧
    s.move.body = s.grow.body.dropLast := by
  have hg := Snake.grow_body s h
  have hm := Snake.move_body s h
  refine ⟨hg, by rw [hg]; rfl, Snake.grow_currentDirection s, ?_, ?_⟩
  · simp only [Snake.getHead, hg, hm]
  · rw [hg, hm, List.dropLast_cons_of_ne_nil h]

/-- The theorem of C26 on the snake of scenario A. -/
theorem Snake.grow_spec_witness :
    (Snake.grow ⟨[⟨10, 7⟩, ⟨9, 7⟩, ⟨8, 7⟩], Direction.Right⟩).body
        = [⟨11, 7⟩, ⟨10, 7⟩, ⟨9, 7⟩, ⟨8, 7⟩] :=
  (Snake.grow_spec ⟨[⟨10, 7⟩, ⟨9, 7⟩, ⟨8, 7⟩], Direction.Right⟩ (by decide)).1

/-- C27: for a length n ≥ 0, `Snake.reset start n d` builds a body of exactly n
cells, cell i being start - i * offset(d), and sets the heading to d; for
n ≥ 2 the cell head + offset(d) is not the neck. -/
theorem Snake.reset_spec (s : Snake) (start : QPoint) (n : Int) (d : Direction)
    (hn : 0 ≤ n) :
    ((s.reset start n d).body.length : Int) = n ∧
    (∀ i : Nat, (i : Int) < n →
      (s.reset start n d).body[i]? =
        some ⟨start.x - (i : Int) * (DirectionHelper.toOffset d).x,
              start.y - (i : Int) * (DirectionHelper.toOffset d).y⟩) ∧
    (s.reset start n d).currentDirection = d ∧
    (2 ≤ n →
      (s.reset start n d).getHead = start ∧
      (s.reset start n d).body[1]? ≠
        some ((s.reset start n d).getHead + DirectionHelper.toOffset d)) := by
  refine ⟨?_, ?_, rfl, ?_⟩
  · simp only [Snake.reset, List.length_map, List.length_range]
    exact Int.toNat_of_nonneg hn
  · intro i hi
    exact Snake.reset_cell s start n d i (by omega)
  · intro h2
    have h0 := Snake.reset_cell s start n d 0 (by omega)
    have h1 := Snake.reset_cell s start n d 1 (by omega)
    have hhead : (s.reset start n d).getHead = start := by
      have hne : (s.reset start n d).body ≠ [] := by
        intro hnil; rw [hnil] at h0; simp at h0
      have hh := Snake.getHead_ne_nil _ hne
      rw [List.head?_eq_getElem?, h0] at hh
      simp only [Nat.cast_zero, zero_mul, sub_zero, Option.some.injEq] at hh
      rw [← hh]
    refine ⟨hhead, ?_⟩
    rw [h1, hhead]
    simp only [Nat.cast_one, one_mul, QPoint.add_def, ne_eq, Option.some.injEq,
      QPoint.mk.injEq, not_and]
    cases d <;> simp [DirectionHelper.toOffset] <;> omega

/-- The theorem of C27 on the reset of `resetGame` for the default board:
start (10,7), length 3, heading Right. -/
theorem Snake.reset_spec_witness :
    (((Snake.reset ⟨[], Direction.Up⟩ ⟨10, 7⟩ 3 Direction.Right).body.length : Int) = 3) ∧
    (Snake.reset ⟨[], Direction.Up⟩ ⟨10, 7⟩ 3 Direction.Right).currentDirection
      = Direction.Right ∧
    (Snake.reset ⟨[], Direction.Up⟩ ⟨10, 7⟩ 3 Direction.Right).body[1]? ≠
      some ((Snake.reset ⟨[], Direction.Up⟩ ⟨10, 7⟩ 3 Direction.Right).getHead +
        DirectionHelper.toOffset Direction.Right) :=
  ⟨(Snake.reset_spec ⟨[], Direction.Up⟩ ⟨10, 7⟩ 3 Direction.Right (by decide)).1,
   (Snake.reset_spec ⟨[], Direction.Up⟩ ⟨10, 7⟩ 3 Direction.Right (by decide)).2.2.1,
   ((Snake.reset_spec ⟨[], Direction.Up⟩ ⟨10, 7⟩ 3 Direction.Right (by decide)).2.2.2
      (by decide)).2⟩

namespace Food

/-- C28: with a generator that honours its contract, whenever the candidate
list is not empty the index `respawn` asks for lies within the list, and
`respawn` returns a flag and a food (no out-of-range access), whatever the
board size and the exclusion list.  The default generator of the constructor
honours the contract as soon as `QRandomGenerator::bounded(lo, hi)` returns a
value in [lo, hi). -/
theorem respawn_never_faults :
    (∀ (f : Food) (ex : List QPoint), f.randomGenerator.InRange →
      (f.getAvailablePositions ex ≠ [] →
        0 ≤ f.randomGenerator f.rngCalls 0 (((f.getAvailablePositions ex).length : Int) - 1) ∧
        f.randomGenerator f.rngCalls 0 (((f.getAvailablePositions ex).length : Int) - 1)
          < ((f.getAvailablePositions ex).length : Int)) ∧
      ∃ ok f1, f.respawn ex = some (ok, f1)) ∧
    (∀ bounded : Nat → Int → Int → Int,
      (∀ n lo hi, lo < hi → lo ≤ bounded n lo hi ∧ bounded n lo hi < hi) →
      (Food.defaultGenerator bounded).InRange) := by
  constructor
  · intro f ex hgen
    constructor
    · intro hne
      have hlen : 0 < (f.getAvailablePositions ex).length := List.length_pos.2 hne
      obtain ⟨h0, h1⟩ := hgen f.rngCalls 0 (((f.getAvailablePositions ex).length : Int) - 1)
        (by omega)
      exact ⟨h0, by omega⟩
    · by_cases hnil : f.getAvailablePositions ex = []
      · exact ⟨false, f, respawn_of_nil f ex hnil⟩
      · obtain ⟨p, -, hres⟩ := respawn_of_inRange f ex hgen hnil
        exact ⟨true, _, hres⟩
  · intro bounded hb n lo hi hle
    obtain ⟨h1, h2⟩ := hb n lo (hi + 1) (by omega)
    show lo ≤ bounded n lo (hi + 1) ∧ bounded n lo (hi + 1) ≤ hi
    exact ⟨h1, by omega⟩

/-- The theorem of C28 on the 2 x 2 board with (0,0) excluded and the
first-candidate stub: index 0 of three candidates. -/
theorem respawn_never_faults_witness :
    (0 ≤ scenarioF.randomGenerator scenarioF.rngCalls 0
        (((scenarioF.getAvailablePositions [⟨0, 0⟩]).length : Int) - 1) ∧
      scenarioF.randomGenerator scenarioF.rngCalls 0
        (((scenarioF.getAvailablePositions [⟨0, 0⟩]).length : Int) - 1)
        < ((scenarioF.getAvailablePositions [⟨0, 0⟩]).length : Int)) ∧
    ∃ ok f1, scenarioF.respawn [⟨0, 0⟩] = some (ok, f1) :=
  ⟨(respawn_never_faults.1 scenarioF [⟨0, 0⟩] firstCandidate_inRange).1 (by decide),
   (respawn_never_faults.1 scenarioF [⟨0, 0⟩] firstCandidate_inRange).2⟩

end Food

/-- C29: `isOpposite` holds exactly for (Up,Down), (Down,Up), (Left,Right),
(Right,Left); it is symmetric and irreflexive; every direction has exactly one
opposite, the one of the specification; `isOpposite a b` holds exactly when
the offsets of `a` and `b` add up to (0,0); every offset is a unit step. -/
theorem DirectionHelper.isOpposite_spec :
    (∀ a b : Direction, DirectionHelper.isOpposite a b = true ↔
      (a = Direction.Up ∧ b = Direction.Down) ∨ (a = Direction.Down ∧ b = Direction.Up) ∨
      (a = Direction.Left ∧ b = Direction.Right) ∨
      (a = Direction.Right ∧ b = Direction.Left)) ∧
    (∀ a b : Direction, DirectionHelper.isOpposite a b = DirectionHelper.isOpposite b a) ∧
    (∀ a : Direction, DirectionHelper.isOpposite a a = false) ∧
    (∀ a : Direction, ∃! b : Direction, DirectionHelper.isOpposite a b = true) ∧
    (∀ a b : Direction, DirectionHelper.isOpposite a b = true ↔ b = a.opposite) ∧
    (∀ a b : Direction, DirectionHelper.isOpposite a b = true ↔
      DirectionHelper.toOffset a + DirectionHelper.toOffset b = ⟨0, 0⟩) ∧
    (∀ a : Direction,
      (((DirectionHelper.toOffset a).x = 1 ∨ (DirectionHelper.toOffset a).x = -1) ∧
        (DirectionHelper.toOffset a).y = 0) ∨
      ((DirectionHelper.toOffset a).x = 0 ∧
        ((DirectionHelper.toOffset a).y = 1 ∨ (DirectionHelper.toOffset a).y = -1))) := by
  refine ⟨?_, ?_, ?_, ?_, ?_, ?_, ?_⟩
  · intro a b; cases a <;> cases b <;> decide
  · intro a b; cases a <;> cases b <;> rfl
  · intro a; cases a <;> rfl
  · intro a
    refine ⟨a.opposite, ?_, ?_⟩
    · cases a <;> rfl
    · intro b hb
      cases a <;> cases b <;> first | rfl | cases hb
  · intro a b; cases a <;> cases b <;> decide
  · intro a b; cases a <;> cases b <;> decide
  · intro a; cases a <;> decide

/-- The theorem of C29 at Up and Down. -/
theorem DirectionHelper.isOpposite_spec_witness :
    DirectionHelper.isOpposite Direction.Up Direction.Down = true ∧
    DirectionHelper.toOffset Direction.Up + DirectionHelper.toOffset Direction.Down
      = ⟨0, 0⟩ :=
  ⟨(DirectionHelper.isOpposite_spec.1 Direction.Up Direction.Down).2 (Or.inl ⟨rfl, rfl⟩),
   (DirectionHelper.isOpposite_spec.2.2.2.2.2.1 Direction.Up Direction.Down).1
     ((DirectionHelper.isOpposite_spec.1 Direction.Up Direction.Down).2 (Or.inl ⟨rfl, rfl⟩))⟩

/-- C30: in every reachable engine state, whatever its state value and the
board size, score = 10 * (snake length - 3). -/
theorem score_length_coupling (w h : Int) (gen : RandomGenerator) (g : GameLogic)
    (hr : Reachable w h gen g) :
    g.score = Constants.kScorePerFood *
      (g.snake.getLength - Constants.kInitialSnakeLength) ∧
    g.score = 10 * ((g.snake.body.length : Int) - 3) :=
  ⟨hr.score_length, hr.score_length⟩

/-- The theorem of C30 on the reachable end state of the 4 x 1 game: score 10,
length 4. -/
theorem score_length_coupling_witness :
    scenarioFullOver.score = Constants.kScorePerFood *
      (scenarioFullOver.snake.getLength - Constants.kInitialSnakeLength) ∧
    scenarioFullOver.score = 10 * ((scenarioFullOver.snake.body.length : Int) - 3) :=
  score_length_coupling 4 1 firstCandidate scenarioFullOver scenarioFullOver_reachable

/-- C31: in a reachable Running state (in-range generator) take a tick on
which the snake eats: the candidate head is the food position and lies inside
the board, the second being automatic on every board with at least one cell.
Then the candidate head is not a body cell, the tick returns with the grown
body, the self-collision check on the grown snake is false, and the result is
GameOver exactly when the grown body covers the whole board (the respawn finds
no free cell) and Running exactly when a free cell is left. -/
theorem eating_tick_never_self_collides (w h : Int) (gen : RandomGenerator) (g : GameLogic)
    (hgen : gen.InRange) (hr : Reachable w h gen g) (hrun : g.state = GameState.Running)
    (hfood : g.nextHead = g.food.position)
    (hboard : g.InBoard g.nextHead ∨ (1 ≤ w ∧ 1 ≤ h)) :
    g.InBoard g.nextHead ∧ g.nextHead ∉ g.snake.body ∧
    ∃ g1 ev, g.onGameTick = some (g1, ev) ∧
      g1.snake.body = g.nextHead :: g.snake.body ∧
      g1.checkSelfCollision g1.snake.getHead = false ∧
      (g1.state = GameState.GameOver ↔
        g.food.getAvailablePositions g1.snake.body = [] ∧
          ∀ c, g.InBoard c → c ∈ g1.snake.body) ∧
      (g1.state = GameState.Running ↔ ∃ c, g.InBoard c ∧ c ∉ g1.snake.body) := by
  have hin : g.InBoard g.nextHead := by
    rcases hboard with hin | ⟨hw, hh⟩
    · exact hin
    · rcases hr.food_range with hs | hfin
      · exact absurd (hfood.trans hs)
          (GameLogic.nextHead_ne_sentinel g (hr.head hw hh (Or.inl hrun)))
      · rw [hfood]; exact hfin
  have hwf := hr.frame.2.2.2
  have hnot : g.nextHead ∉ g.snake.body := by
    have hne : g.food.position ≠ ⟨-1, -1⟩ := by
      rw [← hfood]; exact GameLogic.inBoard_ne_sentinel g _ hin
    rcases hr.food hne with hd | ⟨hs, -⟩
    · rw [hfood]; exact hd
    · rw [hrun] at hs; cases hs
  have hcover : ∀ l : List QPoint,
      g.food.getAvailablePositions l = [] ↔ ∀ c, g.InBoard c → c ∈ l := by
    intro l
    rw [Food.getAvailablePositions_eq_nil_iff]
    unfold GameLogic.InBoard Food.InBoard
    rw [hwf.1, hwf.2]
  refine ⟨hin, hnot, ?_⟩
  obtain ⟨g1, ev, h1⟩ := GameLogic.onGameTick_isSome g (by rw [hr.frame.2.2.1]; exact hgen)
  refine ⟨g1, ev, h1, ?_⟩
  rcases GameLogic.onGameTick_inv g g1 ev h1 with ⟨hn, -⟩ | ⟨-, hn, -⟩ | ⟨-, -, hn, -⟩ |
    ⟨-, -, -, hs, -, hc⟩
  · exact absurd hrun hn
  · exact absurd hin hn
  · exact absurd hfood hn
  · have hb : g1.snake.body = g.nextHead :: g.snake.body := by rw [hs]
    have hself : g1.checkSelfCollision g1.snake.getHead = false := by
      rw [← Bool.not_eq_true, GameLogic.checkSelfCollision_eq_true_iff, hb]
      simpa [Snake.getHead, hb] using hnot
    refine ⟨hb, hself, ?_⟩
    rw [hb]
    rcases hc with ⟨hnil, -, hst, -⟩ | ⟨hmem, hcase⟩
    · have hall := (hcover _).1 hnil
      refine ⟨⟨fun _ => ⟨hnil, hall⟩, fun _ => hst⟩, ?_⟩
      rw [hst]
      constructor
      · intro hh; cases hh
      · rintro ⟨c, hc1, hc2⟩
        exact absurd (hall c hc1) hc2
    · rcases hcase with ⟨-, hst, -⟩ | ⟨hm, -⟩
      swap
      · exact absurd hm hnot
      · have hex : ∃ c, g.InBoard c ∧ c ∉ g.nextHead :: g.snake.body := by
          obtain ⟨hfb, hfn⟩ := (Food.mem_getAvailablePositions _ _ _).1 hmem
          refine ⟨g1.food.position, ?_, hfn⟩
          unfold Food.InBoard at hfb
          unfold GameLogic.InBoard
          rw [← hwf.1, ← hwf.2]
          exact hfb
        rw [hst]
        refine ⟨⟨fun hh => GameState.noConfusion hh, ?_⟩, fun _ => hex, fun _ => rfl⟩
        rintro ⟨-, hall⟩
        obtain ⟨c, hc1, hc2⟩ := hex
        exact absurd (hall c hc1) hc2

/-- The theorem of C31 on the 4 x 1 board, where the eaten food was on the
last free cell. -/
theorem eating_tick_never_self_collides_witness :
    scenarioFull.InBoard scenarioFull.nextHead ∧
    scenarioFull.nextHead ∉ scenarioFull.snake.body ∧
    ∃ g1 ev, scenarioFull.onGameTick = some (g1, ev) ∧
      g1.snake.body = scenarioFull.nextHead :: scenarioFull.snake.body ∧
      g1.checkSelfCollision g1.snake.getHead = false ∧
      (g1.state = GameState.GameOver ↔
        scenarioFull.food.getAvailablePositions g1.snake.body = [] ∧
          ∀ c, scenarioFull.InBoard c → c ∈ g1.snake.body) ∧
      (g1.state = GameState.Running ↔ ∃ c, scenarioFull.InBoard c ∧ c ∉ g1.snake.body) :=
  eating_tick_never_self_collides 4 1 firstCandidate scenarioFull firstCandidate_inRange
    scenarioFull_reachable rfl rfl (Or.inr ⟨by decide, by decide⟩)

/-- C32: `Snake.reset` builds a body whose consecutive cells are at Manhattan
distance 1; `Snake.move` and `Snake.grow` keep this; so in every reachable
engine state every two consecutive snake body cells are at Manhattan distance
exactly 1. -/
theorem contiguity_preserved :
    (∀ (s : Snake) (start : QPoint) (n : Int) (d : Direction),
      Contiguous (s.reset start n d).body) ∧
    (∀ s : Snake, Contiguous s.body → Contiguous s.move.body) ∧
    (∀ s : Snake, Contiguous s.body → Contiguous s.grow.body) ∧
    (∀ (w h : Int) (gen : RandomGenerator) (g : GameLogic), Reachable w h gen g →
      Contiguous g.snake.body ∧
      ∀ (i : Nat) (a b : QPoint), g.snake.body[i]? = some a →
        g.snake.body[i + 1]? = some b →
        (a.x - b.x).natAbs + (a.y - b.y).natAbs = 1) := by
  refine ⟨Snake.reset_contiguous, Snake.move_contiguous, Snake.grow_contiguous, ?_⟩
  intro w h gen g hr
  refine ⟨hr.contiguous, ?_⟩
  intro i a b ha hb
  have hc := hr.contiguous
  unfold Contiguous at hc
  rw [List.chain'_iff_get] at hc
  obtain ⟨hi1, h1⟩ := List.getElem?_eq_some.1 hb
  obtain ⟨hi0, h0⟩ := List.getElem?_eq_some.1 ha
  have := hc i (by omega)
  simp only [List.get_eq_getElem, h0, h1] at this
  exact this

/-- The theorem of C32 on the reachable end state of the 4 x 1 game. -/
theorem contiguity_preserved_witness :
    Contiguous scenarioFullOver.snake.body :=
  (contiguity_preserved.2.2.2 4 1 firstCandidate scenarioFullOver
    scenarioFullOver_reachable).1

/-- C33: in every reachable engine state the food position is the sentinel
(-1,-1) or a cell with 0 ≤ x < width and 0 ≤ y < height, whatever the
generator; with an in-range generator `resetGame` returns, and it leaves the
food at the sentinel only when the freshly reset snake body covers every board
cell (and then it does). -/
theorem food_position_range :
    (∀ (w h : Int) (gen : RandomGenerator) (g : GameLogic), Reachable w h gen g →
      g.food.position = ⟨-1, -1⟩ ∨
      (0 ≤ g.food.position.x ∧ g.food.position.x < w ∧
        0 ≤ g.food.position.y ∧ g.food.position.y < h)) ∧
    (∀ g : GameLogic, g.food.randomGenerator.InRange →
      ∃ g1 ev, g.resetGame = some (g1, ev) ∧
        (g1.food.position = ⟨-1, -1⟩ ↔ ∀ c, g1.InBoard c → c ∈ g1.snake.body)) := by
  constructor
  · intro w h gen g hr
    rcases hr.food_range with hs | hin
    · exact Or.inl hs
    · right
      unfold GameLogic.InBoard at hin
      rw [hr.frame.1, hr.frame.2.1] at hin
      exact hin
  · intro g hgen
    obtain ⟨g1, ev, h1⟩ := GameLogic.resetGame_isSome g hgen
    obtain ⟨-, -, -, -, -, -, -, -, -, hfree, hfull, -⟩ :=
      GameLogic.resetGame_fields g g1 ev h1
    refine ⟨g1, ev, h1, ?_, hfull⟩
    intro hs c hc
    by_contra hcb
    exact GameLogic.inBoard_ne_sentinel g1 _ (hfree ⟨c, hc, hcb⟩).1 hs

/-- The theorem of C33 on scenario A (reachable, food at (0,0)) and on the
reset of the full 4 x 1 end state. -/
theorem food_position_range_witness :
    (scenarioA.food.position = ⟨-1, -1⟩ ∨
      (0 ≤ scenarioA.food.position.x ∧ scenarioA.food.position.x < 20 ∧
        0 ≤ scenarioA.food.position.y ∧ scenarioA.food.position.y < 15)) ∧
    ∃ g1 ev, scenarioFullOver.resetGame = some (g1, ev) ∧
      (g1.food.position = ⟨-1, -1⟩ ↔ ∀ c, g1.InBoard c → c ∈ g1.snake.body) :=
  ⟨food_position_range.1 20 15 firstCandidate scenarioA scenarioA_reachable,
   food_position_range.2 scenarioFullOver firstCandidate_inRange⟩

namespace GameLogic

/-- C34: a tick in a state other than Running (Ready, Paused or GameOver)
returns the engine state it was given, whole, and publishes no event. -/
theorem onGameTick_outside_running (g : GameLogic)
    (h : g.state = GameState.Ready ∨ g.state = GameState.Paused ∨
      g.state = GameState.GameOver) :
    g.onGameTick = some (g, []) := by
  apply onGameTick_not_running
  rcases h with h | h | h <;> rw [h] <;> exact fun hh => GameState.noConfusion hh

/-- The theorem of C34 on a fresh engine (Ready) and on the end state of the
4 x 1 game (GameOver). -/
theorem onGameTick_outside_running_witness :
    (GameLogic.new 20 15 firstCandidate).onGameTick
      = some (GameLogic.new 20 15 firstCandidate, []) ∧
    scenarioFullOver.onGameTick = some (scenarioFullOver, []) :=
  ⟨onGameTick_outside_running (GameLogic.new 20 15 firstCandidate) (Or.inl rfl),
   onGameTick_outside_running scenarioFullOver (Or.inr (Or.inr rfl))⟩

end GameLogic

end SnakeGame
